import Mathlib

/-!
Verification of the DocumentExtractorAPI core against its specification.

This file is a shallow embedding, in Lean 4, of the Python sources of the
repository (src/app/extractor.py, src/app/worker.py, src/app/main.py,
src/app/models.py, src/app/llm_extractor.py), followed by theorems settling
the specification claims.

Modelling conventions:
  * Python strings are `String` / `List Char`; text handled by this service is
    ASCII, and the ASCII-faithful `Char.toUpper` / `Char.toLower` /
    `Char.isDigit` / `Char.isAlpha` model `str.upper` / `str.lower` and the
    regex classes `\d` / `[A-Za-z]`.  `\w` is `[A-Za-z0-9_]`, `\s` is ASCII
    whitespace.
  * Python `float` amounts are modelled as exact rationals `ℚ`; every amount
    reached by the claims is a short decimal literal, where the two agree.
  * `None` becomes `Option.none`; a raised exception becomes `Except.error`.
  * The regular expressions of extractor.py are compiled by hand into
    deterministic scanners.  Where a pattern needs backtracking
    (the amount pattern), the scanner follows Python's leftmost /
    greedy / first-alternative backtracking order exactly; comments at each
    scanner record the residue of that analysis.
  * Database rows (models.py) become the `Job` structure; the SQLAlchemy
    session operations used by the code (`get` by primary key, `query ...
    filter(idempotency_key == k).one_or_none()`, insert + flush with the
    uniqueness constraint on `idempotency_key`) become list lookups.
    The `created_at` / `updated_at` timestamps are wall-clock metadata no
    claim mentions and are not modelled.
-/

/-! ## Character classes (Python regex classes, ASCII range) -/

/-- Python regex `\s` over the ASCII range (space, tab, newline, carriage
return, form feed, vertical tab). -/
def isPyWs (c : Char) : Bool :=
  c == ' ' || c == '\t' || c == '\n' || c == '\r' || c == '\x0b' || c == '\x0c'

/-- Python regex `\w` over the ASCII range: `[A-Za-z0-9_]`. -/
def isPyWord (c : Char) : Bool :=
  c.isAlpha || c.isDigit || c == '_'

/-- ASCII letter, the regex class `[A-Za-z]`. -/
def isAsciiLetter (c : Char) : Bool := c.isAlpha

/-- The currency symbol class `[\x24€£]` of extractor.py ($, €, £). -/
def isCurrencySymbol (c : Char) : Bool :=
  c == '$' || c == '€' || c == '£'

/-! ## Elementary string operations used by the Python code -/

/-- Python `needle in hay` (substring containment). -/
def listContains (hay pat : List Char) : Bool :=
  match hay with
  | [] => pat.isEmpty
  | _ :: t => pat.isPrefixOf hay || listContains t pat

/-- Python `s.replace(c, "")` for a one-character needle. -/
def stripChar (c : Char) (s : List Char) : List Char :=
  s.filter (fun x => x ≠ c)

/-- Python `s.replace(c, d)` for one-character needle and replacement. -/
def swapChar (c d : Char) (s : List Char) : List Char :=
  s.map (fun x => if x = c then d else x)

/-- Index of the last occurrence of `c` (Python `s.rfind(c)`, `none` for -1). -/
def lastIdxOf (c : Char) (s : List Char) : Option Nat :=
  (List.range s.length).foldl
    (fun acc i => if s.get? i = some c then some i else acc) none

/-- `_normalize_text` of extractor.py: `replace("\r\n", "\n")` then
`replace("\r", "\n")` (the two sequential global replaces fuse into one
left-to-right pass). -/
def normalizeNewlines : List Char → List Char
  | '\r' :: '\n' :: rest => '\n' :: normalizeNewlines rest
  | '\r' :: rest => '\n' :: normalizeNewlines rest
  | c :: rest => c :: normalizeNewlines rest
  | [] => []

/-- Python `s.split("\n")` (keeps empty pieces, `"".split("\n") = [""]`). -/
def splitOnNl : List Char → List (List Char)
  | [] => [[]]
  | '\n' :: rest => [] :: splitOnNl rest
  | c :: rest =>
    match splitOnNl rest with
    | l :: ls => (c :: l) :: ls
    | [] => [[c]]

/-- Value of a string of decimal digits (Python `int`). -/
def digitsToNat (ds : List Char) : Nat :=
  ds.foldl (fun n c => n * 10 + (c.toNat - '0'.toNat)) 0

/-! ## The amount pattern

extractor.py compiles
  `symbol_amount_regex = ([\x24€£])\s*(NUM)` and
  `amount_regex        = ([\x24€£])?\s*(NUM)` where
  `NUM = [0-9]{1,3}(?:[,.\s][0-9]{3})*(?:[.,][0-9]{2})|[0-9]+(?:[.,][0-9]{2})?`.

`NUM` is the only sub-pattern that genuinely backtracks.  Since nothing
follows group 2 in either pattern, the first (highest-priority) match of
`NUM` at a position is the one Python keeps, and the scanners below produce
exactly that match:
  * alternative A is tried before alternative B;
  * `[0-9]{1,3}` tries 3, then 2, then 1 digits;
  * the starred group is greedy: the scanner first extends the repetition
    and only on failure of the whole continuation falls back to closing the
    number with the mandatory `[.,][0-9]{2}` group at the current point.
-/

/-- The mandatory cents group `[.,][0-9]{2}` (also the optional tail of
alternative B).  Returns (matched chars, rest). -/
def finPart : List Char → Option (List Char × List Char)
  | c :: d1 :: d2 :: rest =>
    if (c == '.' || c == ',') && d1.isDigit && d2.isDigit then
      some ([c, d1, d2], rest)
    else none
  | _ => none

/-- Greedy `(?:[,.\s][0-9]{3})*` followed by the mandatory `[.,][0-9]{2}`,
with Python's backtracking order (extend the star first, close on failure). -/
def starFin : List Char → Option (List Char × List Char)
  | c :: d1 :: d2 :: d3 :: rest =>
    if (c == ',' || c == '.' || isPyWs c) && d1.isDigit && d2.isDigit && d3.isDigit then
      match starFin rest with
      | some (m, rest2) => some (c :: d1 :: d2 :: d3 :: m, rest2)
      | none => finPart (c :: d1 :: d2 :: d3 :: rest)
    else finPart (c :: d1 :: d2 :: d3 :: rest)
  | cs => finPart cs

/-- `[0-9]{k}` for exactly `k` digits. -/
def takeDigitsExact (k : Nat) (cs : List Char) : Option (List Char × List Char) :=
  if (cs.take k).length == k && (cs.take k).all Char.isDigit then
    some (cs.take k, cs.drop k)
  else none

/-- `[0-9]{k}(?:[,.\s][0-9]{3})*(?:[.,][0-9]{2})` for one fixed `k`. -/
def branchAK (k : Nat) (cs : List Char) : Option (List Char × List Char) :=
  match takeDigitsExact k cs with
  | none => none
  | some (d, rest) =>
    match starFin rest with
    | none => none
    | some (m, rest2) => some (d ++ m, rest2)

/-- Alternative A of `NUM`: `[0-9]{1,3}(?:[,.\s][0-9]{3})*(?:[.,][0-9]{2})`,
leading digits greedy (3 first, then 2, then 1). -/
def branchA (cs : List Char) : Option (List Char × List Char) :=
  branchAK 3 cs <|> (branchAK 2 cs <|> branchAK 1 cs)

/-- Alternative B of `NUM`: `[0-9]+(?:[.,][0-9]{2})?`.  The digit run is
greedy (maximal), the optional cents tail is tried first. -/
def branchB (cs : List Char) : Option (List Char × List Char) :=
  if (cs.takeWhile Char.isDigit).isEmpty then none
  else
    match finPart (cs.dropWhile Char.isDigit) with
    | some (f, rest2) => some (cs.takeWhile Char.isDigit ++ f, rest2)
    | none => some (cs.takeWhile Char.isDigit, cs.dropWhile Char.isDigit)

/-- The whole `NUM` pattern (alternative A preferred over B, as in Python). -/
def matchNum (cs : List Char) : Option (List Char × List Char) :=
  branchA cs <|> branchB cs

/-! Length facts used for termination of the scanners. -/

theorem finPart_rest_lt : ∀ cs m r, finPart cs = some (m, r) → r.length < cs.length := by
  intro cs m r h
  unfold finPart at h
  split at h
  · split at h
    · cases h
      simp only [List.length_cons]
      omega
    · cases h
  · cases h

theorem starFin_rest_le : ∀ cs m r, starFin cs = some (m, r) → r.length ≤ cs.length
  | c :: d1 :: d2 :: d3 :: rest, m, r, h => by
    unfold starFin at h
    split at h
    · rcases hrec : starFin rest with _ | p
      · rw [hrec] at h
        exact le_of_lt (finPart_rest_lt _ _ _ h)
      · rw [hrec] at h
        rcases p with ⟨m', rest2⟩
        cases h
        have := starFin_rest_le rest m' _ hrec
        simp only [List.length_cons]
        omega
    · exact le_of_lt (finPart_rest_lt _ _ _ h)
  | [], m, r, h => le_of_lt (finPart_rest_lt _ _ _ h)
  | [a], m, r, h => le_of_lt (finPart_rest_lt _ _ _ h)
  | [a, b], m, r, h => le_of_lt (finPart_rest_lt _ _ _ h)
  | [a, b, c], m, r, h => le_of_lt (finPart_rest_lt _ _ _ h)

theorem orElse_some {α : Type} {x y : Option α} {v : α}
    (h : (x <|> y) = some v) : x = some v ∨ y = some v := by
  cases x with
  | some a => left; simpa using h
  | none => right; simpa using h

theorem takeDigits_rest_lt {k : Nat} {cs d rest} (hk : 0 < k)
    (h : takeDigitsExact k cs = some (d, rest)) : rest.length < cs.length := by
  unfold takeDigitsExact at h
  split at h
  · cases h
    rename_i hcond
    have hlen : (cs.take k).length = k := by
      have h1 := (Bool.and_eq_true _ _).mp hcond |>.1
      simpa using h1
    have hk2 : k ≤ cs.length := by
      have := List.length_take k cs
      omega
    simp only [List.length_drop]
    omega
  · cases h

theorem branchAK_rest_lt {k cs m r} (hk : 0 < k)
    (h : branchAK k cs = some (m, r)) : r.length < cs.length := by
  rcases htd : takeDigitsExact k cs with _ | ⟨d, rest⟩
  · simp only [branchAK, htd] at h
    cases h
  · simp only [branchAK, htd] at h
    rcases hsf : starFin rest with _ | ⟨m2, rest2⟩
    · simp only [hsf] at h
      cases h
    · simp only [hsf] at h
      cases h
      exact lt_of_le_of_lt (starFin_rest_le _ _ _ hsf) (takeDigits_rest_lt hk htd)

theorem branchA_rest_lt {cs m r} (h : branchA cs = some (m, r)) : r.length < cs.length := by
  unfold branchA at h
  rcases orElse_some h with h | h
  · exact branchAK_rest_lt (by omega) h
  rcases orElse_some h with h | h
  · exact branchAK_rest_lt (by omega) h
  · exact branchAK_rest_lt (by omega) h

theorem branchB_rest_lt {cs m r} (h : branchB cs = some (m, r)) : r.length < cs.length := by
  unfold branchB at h
  split at h
  · cases h
  · rename_i hne
    have hsplit : (cs.takeWhile Char.isDigit).length + (cs.dropWhile Char.isDigit).length
        = cs.length := by
      rw [← List.length_append, List.takeWhile_append_dropWhile]
    have hpos : 0 < (cs.takeWhile Char.isDigit).length := by
      cases hts : cs.takeWhile Char.isDigit with
      | nil => rw [hts] at hne; simp at hne
      | cons a t => simp [hts]
    rcases hfp : finPart (cs.dropWhile Char.isDigit) with _ | ⟨f, rest2⟩
    · rw [hfp] at h
      cases h
      omega
    · rw [hfp] at h
      cases h
      have := finPart_rest_lt _ _ _ hfp
      omega

theorem matchNum_rest_lt {cs m r} (h : matchNum cs = some (m, r)) : r.length < cs.length := by
  unfold matchNum at h
  rcases orElse_some h with h | h
  · exact branchA_rest_lt h
  · exact branchB_rest_lt h

theorem len_dropWhile_le (p : Char → Bool) (l : List Char) :
    (l.dropWhile p).length ≤ l.length :=
  (List.dropWhile_sublist (p := p) (l := l)).length_le

/-! ## `finditer` over a line

`symbol_amount_regex.finditer(line)`: at each position, a currency symbol,
then `\s*` (necessarily maximal, since `NUM` starts with a digit and no
whitespace character is a digit), then `NUM`.  Matches are non-overlapping
and scanning resumes at the end of each match, exactly as in Python. -/

/-- One attempt of `([\x24€£])\s*(NUM)` anchored at the head of `cs`,
returning (symbol, raw number, rest after the match). -/
def matchSymNum : List Char → Option (Char × List Char × List Char)
  | c :: rest =>
    if isCurrencySymbol c then
      match matchNum (rest.dropWhile isPyWs) with
      | some (raw, rest3) => some (c, raw, rest3)
      | none => none
    else none
  | [] => none

theorem matchSymNum_rest_lt {cs s raw r} (h : matchSymNum cs = some (s, raw, r)) :
    r.length < cs.length := by
  match cs with
  | [] => cases h
  | c :: rest =>
    simp only [matchSymNum] at h
    split at h
    · rcases hmn : matchNum (rest.dropWhile isPyWs) with _ | ⟨raw2, rest3⟩
      · simp only [hmn] at h
        cases h
      · simp only [hmn] at h
        cases h
        have h1 := matchNum_rest_lt hmn
        have h2 := len_dropWhile_le isPyWs rest
        simp only [List.length_cons]
        omega
    · cases h

/-- `symbol_amount_regex.finditer(line)`: the ordered list of
(symbol, raw amount) captures.  The scan is driven by a structural fuel so
that it evaluates inside the kernel; fuel `cs.length` is always enough
(each step drops at least one character — `matchSymNum_rest_lt`), which
`findSymAmounts_nil` / `findSymAmounts_cons` below prove by giving the
scanner its intended recurrence. -/
def findSymAmountsF : Nat → List Char → List (Char × List Char)
  | 0, _ => []
  | _, [] => []
  | fuel + 1, c :: rest =>
    match matchSymNum (c :: rest) with
    | some (sym, raw, rest3) => (sym, raw) :: findSymAmountsF fuel rest3
    | none => findSymAmountsF fuel rest

def findSymAmounts (cs : List Char) : List (Char × List Char) :=
  findSymAmountsF cs.length cs

theorem findSymAmountsF_stable :
    ∀ fuel cs, cs.length ≤ fuel → findSymAmountsF fuel cs = findSymAmounts cs := by
  intro fuel
  induction fuel using Nat.strong_induction_on with
  | _ fuel ih =>
    intro cs hle
    rcases fuel with _ | fuel
    · have hnil : cs = [] := List.length_eq_zero.mp (by omega)
      subst hnil
      rfl
    · rcases cs with _ | ⟨c, rest⟩
      · rfl
      · show findSymAmountsF (fuel + 1) (c :: rest)
            = findSymAmountsF (rest.length + 1) (c :: rest)
        rw [findSymAmountsF, findSymAmountsF]
        simp only [List.length_cons] at hle
        rcases hm : matchSymNum (c :: rest) with _ | ⟨sym, raw, rest3⟩
        · simp only [hm]
          rw [ih fuel (by omega) rest (by omega),
              ih rest.length (by omega) rest (le_refl _)]
        · simp only [hm]
          have hlt := matchSymNum_rest_lt hm
          simp only [List.length_cons] at hlt
          rw [ih fuel (by omega) rest3 (by omega),
              ih rest.length (by omega) rest3 (by omega)]

theorem findSymAmounts_nil : findSymAmounts [] = [] := rfl

theorem findSymAmounts_cons (c : Char) (rest : List Char) :
    findSymAmounts (c :: rest)
      = match matchSymNum (c :: rest) with
        | some (sym, raw, rest3) => (sym, raw) :: findSymAmounts rest3
        | none => findSymAmounts rest := by
  show findSymAmountsF (c :: rest).length (c :: rest) = _
  simp only [List.length_cons]
  rw [findSymAmountsF]
  rcases hm : matchSymNum (c :: rest) with _ | ⟨sym, raw, rest3⟩
  · simp only [hm]
    exact findSymAmountsF_stable rest.length rest (le_refl _)
  · simp only [hm]
    have hlt := matchSymNum_rest_lt hm
    simp only [List.length_cons] at hlt
    rw [findSymAmountsF_stable rest.length rest3 (by omega)]

/-- One attempt of `([\x24€£])?\s*(NUM)` anchored at the head of `cs`.
If the head is a currency symbol the optional group is taken greedily; when
the continuation then fails, backtracking into the empty optional group also
fails (`\s*` cannot consume the symbol and `NUM` needs a digit), so the whole
attempt at this position fails. -/
def matchOptSymNum : List Char → Option (Option Char × List Char × List Char)
  | c :: rest =>
    if isCurrencySymbol c then
      match matchNum (rest.dropWhile isPyWs) with
      | some (raw, rest3) => some (some c, raw, rest3)
      | none => none
    else
      match matchNum ((c :: rest).dropWhile isPyWs) with
      | some (raw, rest3) => some (none, raw, rest3)
      | none => none
  | [] =>
    match matchNum ([] : List Char) with
    | some (raw, rest3) => some (none, raw, rest3)
    | none => none

theorem matchOptSymNum_rest_lt {cs s raw r} (h : matchOptSymNum cs = some (s, raw, r)) :
    r.length < cs.length := by
  match cs with
  | [] =>
    have hnil : matchOptSymNum ([] : List Char) = none := by rfl
    rw [hnil] at h
    cases h
  | c :: rest =>
    simp only [matchOptSymNum] at h
    split at h
    · rcases hmn : matchNum (rest.dropWhile isPyWs) with _ | ⟨raw2, rest3⟩
      · simp only [hmn] at h
        cases h
      · simp only [hmn] at h
        cases h
        have h1 := matchNum_rest_lt hmn
        have h2 := len_dropWhile_le isPyWs rest
        simp only [List.length_cons]
        omega
    · rcases hmn : matchNum ((c :: rest).dropWhile isPyWs) with _ | ⟨raw2, rest3⟩
      · simp only [hmn] at h
        cases h
      · simp only [hmn] at h
        cases h
        have h1 := matchNum_rest_lt hmn
        have h2 := len_dropWhile_le isPyWs (c :: rest)
        omega

/-- `amount_regex.finditer(line)`: ordered (optional symbol, raw amount)
captures, non-overlapping, leftmost-first; fuelled like `findSymAmounts`. -/
def findAmountsF : Nat → List Char → List (Option Char × List Char)
  | 0, _ => []
  | _, [] => []
  | fuel + 1, c :: rest =>
    match matchOptSymNum (c :: rest) with
    | some (sym, raw, rest3) => (sym, raw) :: findAmountsF fuel rest3
    | none => findAmountsF fuel rest

def findAmounts (cs : List Char) : List (Option Char × List Char) :=
  findAmountsF cs.length cs

theorem findAmountsF_stable :
    ∀ fuel cs, cs.length ≤ fuel → findAmountsF fuel cs = findAmounts cs := by
  intro fuel
  induction fuel using Nat.strong_induction_on with
  | _ fuel ih =>
    intro cs hle
    rcases fuel with _ | fuel
    · have hnil : cs = [] := List.length_eq_zero.mp (by omega)
      subst hnil
      rfl
    · rcases cs with _ | ⟨c, rest⟩
      · rfl
      · show findAmountsF (fuel + 1) (c :: rest)
            = findAmountsF (rest.length + 1) (c :: rest)
        rw [findAmountsF, findAmountsF]
        simp only [List.length_cons] at hle
        rcases hm : matchOptSymNum (c :: rest) with _ | ⟨sym, raw, rest3⟩
        · simp only [hm]
          rw [ih fuel (by omega) rest (by omega),
              ih rest.length (by omega) rest (le_refl _)]
        · simp only [hm]
          have hlt := matchOptSymNum_rest_lt hm
          simp only [List.length_cons] at hlt
          rw [ih fuel (by omega) rest3 (by omega),
              ih rest.length (by omega) rest3 (by omega)]

theorem findAmounts_cons (c : Char) (rest : List Char) :
    findAmounts (c :: rest)
      = match matchOptSymNum (c :: rest) with
        | some (sym, raw, rest3) => (sym, raw) :: findAmounts rest3
        | none => findAmounts rest := by
  show findAmountsF (c :: rest).length (c :: rest) = _
  simp only [List.length_cons]
  rw [findAmountsF]
  rcases hm : matchOptSymNum (c :: rest) with _ | ⟨sym, raw, rest3⟩
  · simp only [hm]
    exact findAmountsF_stable rest.length rest (le_refl _)
  · simp only [hm]
    have hlt := matchOptSymNum_rest_lt hm
    simp only [List.length_cons] at hlt
    rw [findAmountsF_stable rest.length rest3 (by omega)]

/-! ## Python `float()` and the number normalization of extractor.py -/

/-- Python `float(s)` restricted to the strings this code can build (digits,
`.`, `,` and whitespace — signs, exponents, `inf`/`nan` are unreachable):
leading/trailing whitespace is stripped, then the string must be digits with
at most one `.` and at least one digit; any `,` or internal whitespace makes
it raise (here: `none`).  Values are exact rationals. -/
def floatOfChars (cs0 : List Char) : Option ℚ :=
  let cs := ((cs0.dropWhile isPyWs).reverse.dropWhile isPyWs).reverse
  if cs.any (fun c => !(c.isDigit || c == '.')) then none
  else if 1 < cs.count '.' then none
  else if !(cs.any Char.isDigit) then none
  else
    let intPart := cs.takeWhile (fun c => c ≠ '.')
    let fracPart := (cs.dropWhile (fun c => c ≠ '.')).drop 1
    some (mkRat (digitsToNat intPart * 10 ^ fracPart.length + digitsToNat fracPart)
      (10 ^ fracPart.length))

/-- The inline normalization applied to each matched raw number in
`_extract_currency_and_amount` (the duplicated block at extractor.py lines
156-162 and 183-188; the `if normalized.count(".") > 1 and "," not in
normalized: pass` statement there is a no-op and has no counterpart here):
`normalized = raw.replace(" ", "").replace(",", "")`, then, when the raw
string has both `,` and `.` with the last `,` after the last `.`,
`normalized = raw.replace(".", "").replace(",", ".")` — recomputed from
`raw`, without the whitespace strip. -/
def normalizeRawNumber (raw : List Char) : List Char :=
  if raw.contains ',' && raw.contains '.'
      && decide ((lastIdxOf ',' raw).getD 0 > (lastIdxOf '.' raw).getD 0) then
    swapChar ',' '.' (stripChar '.' raw)
  else
    stripChar ',' (stripChar ' ' raw)

/-- `float(normalized)` for one matched raw number; `none` is Python's
`except: continue` (the number is discarded). -/
def parseRawNumber (raw : List Char) : Option ℚ :=
  floatOfChars (normalizeRawNumber raw)

/-! ## Line-level searches of `_extract_currency_and_amount` -/

/-- Case-insensitive literal match (`re.IGNORECASE`, ASCII):
`pat` consumed at the head of `cs`, returning the rest. -/
def ciLit : List Char → List Char → Option (List Char)
  | [], cs => some cs
  | _ :: _, [] => none
  | p :: ps, c :: cs => if c.toLower == p.toLower then ciLit ps cs else none

/-- Word boundary `\b` before a word character, given the previous character
(`none` at the start of the line). -/
def boundaryBefore (prev : Option Char) : Bool :=
  match prev with
  | none => true
  | some p => !isPyWord p

/-- Word boundary `\b` after a word character, given the rest of the input. -/
def boundaryAfter (rest : List Char) : Bool :=
  match rest with
  | [] => true
  | c :: _ => !isPyWord c

/-- One alternative-ordered attempt of
`\b(TOTAL|Grand\s+Total|Total\s+Paid)\b` (IGNORECASE) at a position.
The `\s+` between the literal words is necessarily the maximal whitespace
run (the following literal starts with a letter). -/
def matchTotalAt (prev : Option Char) (cs : List Char) : Bool :=
  boundaryBefore prev &&
    ((match ciLit "total".data cs with
      | some rest => boundaryAfter rest
      | none => false) ||
     (match ciLit "grand".data cs with
      | some rest =>
        let ws := rest.takeWhile isPyWs
        if ws.isEmpty then false
        else
          match ciLit "total".data (rest.dropWhile isPyWs) with
          | some rest2 => boundaryAfter rest2
          | none => false
      | none => false) ||
     (match ciLit "total".data cs with
      | some rest =>
        let ws := rest.takeWhile isPyWs
        if ws.isEmpty then false
        else
          match ciLit "paid".data (rest.dropWhile isPyWs) with
          | some rest2 => boundaryAfter rest2
          | none => false
      | none => false))

/-- `total_pattern.search(line)` as a boolean (`bool(re.search(...))`). -/
def hasTotal (line : List Char) : Bool :=
  go none line
where
  go (prev : Option Char) : List Char → Bool
  | [] => matchTotalAt prev []
  | c :: rest => matchTotalAt prev (c :: rest) || go (some c) rest

/-- `symbol_pattern.search(line)` as a boolean. -/
def hasSymbol (line : List Char) : Bool :=
  line.any isCurrencySymbol

/-- The fixed whitelist `SUPPORTED_CURRENCY_CODES` (and, identically, the
alternatives of `code_pattern`). -/
def currencyCodes : List (List Char) :=
  ["USD".data, "EUR".data, "GBP".data, "AUD".data, "CAD".data,
   "CHF".data, "CNY".data, "INR".data, "JPY".data, "NZD".data]

/-- `code_pattern` (`\b(USD|EUR|...)\b`, case-SENSITIVE) matched at one
position; the alternatives are disjoint three-letter literals, so at most
one can match. -/
def matchCodeAt (prev : Option Char) (cs : List Char) : Option (List Char) :=
  if boundaryBefore prev then
    currencyCodes.findSome? fun code =>
      if code.isPrefixOf cs && boundaryAfter (cs.drop 3) then some code else none
  else none

/-- `code_pattern.search(line)`: the leftmost match's `group(1)`. -/
def codeSearch (line : List Char) : Option (List Char) :=
  go none line
where
  go (prev : Option Char) : List Char → Option (List Char)
  | [] => matchCodeAt prev []
  | c :: rest =>
    match matchCodeAt prev (c :: rest) with
    | some code => some code
    | none => go (some c) rest

/-- `bool(code_pattern.search(line))`. -/
def hasCode (line : List Char) : Bool :=
  (codeSearch line).isSome

/-! ## `_extract_currency_and_amount` -/

/-- Append `l` if not already present (the `if line not in candidates:
candidates.append(line)` step). -/
def addUnique (acc : List (List Char)) (l : List Char) : List (List Char) :=
  if acc.contains l then acc else acc ++ [l]

def addAllUnique (acc : List (List Char)) (ls : List (List Char)) : List (List Char) :=
  ls.foldl addUnique acc

/-- `€ → EUR, $ → USD, £ → GBP` (the symbol-to-code chain of the first
collection loop; the same chain appears in the fallback loop). -/
def symbolCurrency (sym : Char) : Option (List Char) :=
  if sym == '€' then some "EUR".data
  else if sym == '$' then some "USD".data
  else if sym == '£' then some "GBP".data
  else none

/-- The per-candidate-line collection of `(amount, currency)` pairs
(extractor.py lines 146-203): the line-level code (validated against the
whitelist), then every symbol-anchored amount, then — only when the line has
no symbol-anchored amount at all — every generic amount.  Unparseable
numbers are skipped (`except: continue`). -/
def collectLine (cand : List Char) : List (ℚ × Option (List Char)) :=
  let lineCode : Option (List Char) :=
    match codeSearch cand with
    | some code => if currencyCodes.contains code then some code else none
    | none => none
  let symPairs := (findSymAmounts cand).filterMap fun p =>
    (parseRawNumber p.2).map fun v =>
      (v, match lineCode with
          | some code => some code
          | none => symbolCurrency p.1)
  if (findSymAmounts cand).isEmpty then
    symPairs ++ (findAmounts cand).filterMap fun p =>
      (parseRawNumber p.2).map fun v =>
        (v, match p.1 with
            | some sym => symbolCurrency sym
            | none => lineCode)
  else symPairs

/-- Python `max(parsed, key=lambda x: x[0])`: first maximal element. -/
def maxByAmount (hd : ℚ × Option (List Char)) (tl : List (ℚ × Option (List Char))) :
    ℚ × Option (List Char) :=
  tl.foldl (fun best p => if best.1 < p.1 then p else best) hd

/-- `_extract_currency_and_amount` of extractor.py. -/
def extract_currency_and_amount (text : String) : Option (List Char) × Option ℚ :=
  let normalizedLines := splitOnNl (normalizeNewlines text.data)
  let totals := normalizedLines.filter hasTotal
  let totalsWithCurrency := totals.filter fun l => hasSymbol l || hasCode l
  let group1 := if totalsWithCurrency.isEmpty then totals else totalsWithCurrency
  let candidates0 :=
    addAllUnique
      (addAllUnique (addAllUnique [] group1) (normalizedLines.filter hasSymbol))
      (normalizedLines.filter hasCode)
  let hasAnyCurrencyHint := normalizedLines.any fun l => hasSymbol l || hasCode l
  let candidates :=
    if hasAnyCurrencyHint then candidates0
    else
      normalizedLines.foldl
        (fun acc l =>
          if !(findAmounts l).isEmpty && !acc.contains l then acc ++ [l] else acc)
        candidates0
  match candidates.flatMap collectLine with
  | [] => (none, none)
  | p :: ps =>
    let best := maxByAmount p ps
    (best.2, some best.1)

/-! ## `_extract_invoice_number` -/

/-- The token class `[A-Za-z0-9\-_/]` of the capture groups. -/
def isTokenChar (c : Char) : Bool :=
  c.isAlpha || c.isDigit || c == '-' || c == '_' || c == '/'

/-- A maximal, non-empty token run (`([A-Za-z0-9\-_/]+)`, greedy, with
nothing after it in the pattern). -/
def tokRun (cs : List Char) : Option (List Char) :=
  if (cs.takeWhile isTokenChar).isEmpty then none else some (cs.takeWhile isTokenChar)

/-- `\s*` then the token (`\s*` is maximal: no token char is whitespace). -/
def tokAfterWs (cs : List Char) : Option (List Char) :=
  tokRun (cs.dropWhile isPyWs)

/-- `[:#]?\s*(tok)` with the optional group taken greedily and undone on
failure of the continuation. -/
def optColonHashTok (cs : List Char) : Option (List Char) :=
  (match cs with
   | c :: r2 => if c == ':' || c == '#' then tokAfterWs r2 else none
   | [] => none) <|> tokAfterWs cs

/-- `[:\s]*(tok)` (`[:\s]*` maximal: token chars are neither `:` nor
whitespace). -/
def colonWsStarTok (cs : List Char) : Option (List Char) :=
  tokRun (cs.dropWhile (fun c => c == ':' || isPyWs c))

/-- `[:\s]+(tok)`. -/
def colonWsPlusTok (cs : List Char) : Option (List Char) :=
  if (cs.takeWhile (fun c => c == ':' || isPyWs c)).isEmpty then none
  else tokRun (cs.dropWhile (fun c => c == ':' || isPyWs c))

/-- `Invoice\s*Number[:#]?\s*(tok)` anchored at a position (IGNORECASE). -/
def patInvoiceNumber (cs : List Char) : Option (List Char) := do
  let r1 ← ciLit "invoice".data cs
  let r2 ← ciLit "number".data (r1.dropWhile isPyWs)
  optColonHashTok r2

/-- `Invoice\s*#[:\s]*(tok)` anchored at a position. -/
def patInvoiceHash (cs : List Char) : Option (List Char) := do
  let r1 ← ciLit "invoice".data cs
  match r1.dropWhile isPyWs with
  | '#' :: r2 => colonWsStarTok r2
  | _ => none

/-- `Invoice[:\s]+(tok)` anchored at a position. -/
def patInvoicePlain (cs : List Char) : Option (List Char) := do
  let r1 ← ciLit "invoice".data cs
  colonWsPlusTok r1

/-- `Transaction\s*#[:\s]*(tok)` anchored at a position. -/
def patTransactionHash (cs : List Char) : Option (List Char) := do
  let r1 ← ciLit "transaction".data cs
  match r1.dropWhile isPyWs with
  | '#' :: r2 => colonWsStarTok r2
  | _ => none

/-- `Transaction\s*Number[:#]?\s*(tok)` anchored at a position. -/
def patTransactionNumber (cs : List Char) : Option (List Char) := do
  let r1 ← ciLit "transaction".data cs
  let r2 ← ciLit "number".data (r1.dropWhile isPyWs)
  optColonHashTok r2

/-- `re.search` for an anchored matcher: leftmost match of `m`. -/
def searchPat (m : List Char → Option (List Char)) : List Char → Option (List Char)
  | [] => m []
  | c :: rest =>
    match m (c :: rest) with
    | some g => some g
    | none => searchPat m rest

/-- Python `s.strip()`. -/
def pyStrip (cs : List Char) : List Char :=
  ((cs.dropWhile isPyWs).reverse.dropWhile isPyWs).reverse

/-- `_extract_invoice_number`: the patterns are tried in order; the first
pattern that matches anywhere wins and its `group(1).strip()` is returned. -/
def extract_invoice_number (text : String) : Option (List Char) :=
  match searchPat patInvoiceNumber text.data with
  | some g => some (pyStrip g)
  | none =>
    match searchPat patInvoiceHash text.data with
    | some g => some (pyStrip g)
    | none =>
      match searchPat patInvoicePlain text.data with
      | some g => some (pyStrip g)
      | none =>
        match searchPat patTransactionHash text.data with
        | some g => some (pyStrip g)
        | none =>
          match searchPat patTransactionNumber text.data with
          | some g => some (pyStrip g)
          | none => none

/-! ## `_extract_date_iso` -/

/-- `\b(\d{4})-(\d{2})-(\d{2})\b` anchored at a position: the match is fixed
length, so no backtracking arises.  The leading `\b` (first matched char is
a digit, hence a word char) needs the previous character to be absent or a
non-word char; the trailing `\b` needs the next character to be absent or a
non-word char.  On success, the Python code returns
`f"{g1}-{g2}-{g3}"`, i.e. the matched ten characters verbatim. -/
def isoAt (prev : Option Char) (cs : List Char) : Option (List Char) :=
  match cs with
  | y1 :: y2 :: y3 :: y4 :: '-' :: m1 :: m2 :: '-' :: d1 :: d2 :: rest =>
    if [y1, y2, y3, y4, m1, m2, d1, d2].all Char.isDigit
        && boundaryBefore prev && boundaryAfter rest then
      some [y1, y2, y3, y4, '-', m1, m2, '-', d1, d2]
    else none
  | _ => none

/-- `re.search` for a position-anchored matcher that needs the previous
character for its `\b` test: leftmost match. -/
def scanA {α : Type} (f : Option Char → List Char → Option α) :
    Option Char → List Char → Option α
  | prev, [] => f prev []
  | prev, c :: rest =>
    match f prev (c :: rest) with
    | some a => some a
    | none => scanA f (some c) rest

/-- `MONTHS` of extractor.py (full English month names only). -/
def monthsAssoc : List (List Char × Nat) :=
  [("january".data, 1), ("february".data, 2), ("march".data, 3), ("april".data, 4),
   ("may".data, 5), ("june".data, 6), ("july".data, 7), ("august".data, 8),
   ("september".data, 9), ("october".data, 10), ("november".data, 11),
   ("december".data, 12)]

/-- `MONTHS.get(month_name)`. -/
def monthsLookup (name : List Char) : Option Nat :=
  (monthsAssoc.find? fun p => p.1 == name).map Prod.snd

/-- `\b([A-Za-z]{3,9})\s+(\d{1,2}),\s*(\d{4})\b` anchored at a position.
Deterministic residue of the backtracking:
  * `[A-Za-z]{3,9}` greedy, but any residue of the letter run would make the
    following `\s+` face a letter, so the group must take the whole maximal
    letter run, whose length must lie in 3..9 (a run of 10+ letters can
    never match);
  * `\s+` is the maximal whitespace run (digits are not whitespace);
  * `\d{1,2}` greedy followed by `,`: the maximal digit run must have
    length 1 or 2 and be followed by `,`;
  * `\s*` maximal, then `\d{4}` followed by `\b`: the maximal digit run
    must have length exactly 4 and be followed by a non-word char or the
    end. -/
def monthMatchAt (prev : Option Char) (cs : List Char) :
    Option (List Char × List Char × List Char) :=
  if !boundaryBefore prev then none
  else
    let w := cs.takeWhile isAsciiLetter
    if w.length < 3 || 9 < w.length then none
    else
      let r1 := cs.dropWhile isAsciiLetter
      if (r1.takeWhile isPyWs).isEmpty then none
      else
        let r2 := r1.dropWhile isPyWs
        let ds := r2.takeWhile Char.isDigit
        if ds.length == 0 || 2 < ds.length then none
        else
          match r2.dropWhile Char.isDigit with
          | ',' :: r4 =>
            let r5 := r4.dropWhile isPyWs
            let ys := r5.takeWhile Char.isDigit
            if ys.length == 4 && boundaryAfter (r5.dropWhile Char.isDigit) then
              some (w, ds, ys)
            else none
          | _ => none

/-- Gregorian leap year (Python `datetime`). -/
def isLeap (y : Nat) : Bool :=
  y % 4 == 0 && (y % 100 != 0 || y % 400 == 0)

def daysInMonth (y m : Nat) : Nat :=
  if m == 2 then (if isLeap y then 29 else 28)
  else if m == 4 || m == 6 || m == 9 || m == 11 then 30
  else 31

/-- `datetime(year, month, day)` succeeds (month is already 1..12 here;
`datetime` accepts years 1..9999). -/
def validDate (y m d : Nat) : Bool :=
  1 ≤ y && y ≤ 9999 && 1 ≤ d && d ≤ daysInMonth y m

/-- Zero-padded decimal rendering (`strftime("%Y-%m-%d")`; `%Y` is modelled
as zero-padded to 4, which matches every reachable year of width 4). -/
def pad2 (n : Nat) : List Char :=
  if n < 10 then '0' :: (Nat.toDigits 10 n) else Nat.toDigits 10 n

def pad4 (n : Nat) : List Char :=
  if n < 10 then '0' :: '0' :: '0' :: Nat.toDigits 10 n
  else if n < 100 then '0' :: '0' :: Nat.toDigits 10 n
  else if n < 1000 then '0' :: Nat.toDigits 10 n
  else Nat.toDigits 10 n

/-- The conversion applied to the groups (word, day digits, year digits) of
the first month-shaped match: `MONTHS.get(group(1).lower())`, then
`datetime(year, month, day)` guarded by try/except, then
`strftime("%Y-%m-%d")`. -/
def monthGroupsToDate (g : List Char × List Char × List Char) : Option (List Char) :=
  match monthsLookup (g.1.map Char.toLower) with
  | none => none
  | some m =>
    if validDate (digitsToNat g.2.2) m (digitsToNat g.2.1) then
      some (pad4 (digitsToNat g.2.2) ++ ['-'] ++ pad2 m ++ ['-'] ++ pad2 (digitsToNat g.2.1))
    else none

/-- The month-name branch of `_extract_date_iso`: the FIRST regex match is
taken; if its word is not a known month name, or the date is not a valid
calendar date, the function returns `None` without looking further. -/
def monthBranch (cs : List Char) : Option (List Char) :=
  match scanA monthMatchAt none cs with
  | none => none
  | some g => monthGroupsToDate g

/-- `_extract_date_iso` of extractor.py. -/
def extract_date_iso (text : String) : Option (List Char) :=
  match scanA isoAt none text.data with
  | some s => some s
  | none => monthBranch text.data

/-! ## `_detect_doc_type` and `extract_from_text` -/

/-- `_detect_doc_type` of extractor.py (`text.upper()` then substring
tests, "INVOICE" checked before "RECEIPT"). -/
def detect_doc_type (text : String) : List Char :=
  if listContains (text.data.map Char.toUpper) "INVOICE".data then "invoice".data
  else if listContains (text.data.map Char.toUpper) "RECEIPT".data then "receipt".data
  else "unknown".data

/-- The result mapping of `extract_from_text` (`ExtractionResult`-shaped
dict with keys doc_type, invoice_number, invoice_date, total_amount,
currency). -/
structure Fields where
  doc_type : Option (List Char)
  invoice_number : Option (List Char)
  invoice_date : Option (List Char)
  total_amount : Option ℚ
  currency : Option (List Char)
deriving DecidableEq, Repr

/-- `ExtractorFailure(code, message)` of extractor.py. -/
structure ExtractorFailure where
  code : List Char
  message : List Char
deriving DecidableEq, Repr

/-- The sentinel marker checked by `extract_from_text`. -/
def sentinelMarker : String := "<<TRIGGER_EXTRACTOR_FAILURE>>"

/-- The field mapping computed by `extract_from_text` below its sentinel
check. -/
def heuristicFields (document_text : String) : Fields :=
  { doc_type := some (detect_doc_type document_text)
    invoice_number := extract_invoice_number document_text
    invoice_date := extract_date_iso document_text
    total_amount := (extract_currency_and_amount document_text).2
    currency := (extract_currency_and_amount document_text).1 }

/-- `extract_from_text` of extractor.py: raises (`Except.error`) exactly on
the sentinel marker, otherwise returns the heuristic field mapping. -/
def extract_from_text (document_text : String) : Except ExtractorFailure Fields :=
  if listContains document_text.data sentinelMarker.data then
    .error { code := "EXTRACTOR_TIMEOUT".data
             message := "Extraction process timed out after 30 seconds".data }
  else
    .ok (heuristicFields document_text)

/-! ## The Backend Selector (`run_extractor` in worker.py)

`extract_with_llm` (llm_extractor.py) is an external collaborator invoked
over the network; inside `run_extractor` its outcome is either a field dict
or an exception, and both are parameters of the model (`Except String
Fields`, the `String` being the exception text).  Everything after that
outcome is worker.py code and is modelled exactly. -/

/-- Python `a or b` on the optional string fields of the merge (`None` and
the empty string are falsy, any other string is truthy). -/
def orStr (a b : Option (List Char)) : Option (List Char) :=
  match a with
  | some s => if s.isEmpty then b else some s
  | none => b

/-- The merged dict of worker.py lines 83-89: `or` for the four string
fields, `is not None` for `total_amount`. -/
def mergeFields (lr rr : Fields) : Fields :=
  { doc_type := orStr lr.doc_type rr.doc_type
    invoice_number := orStr lr.invoice_number rr.invoice_number
    invoice_date := orStr lr.invoice_date rr.invoice_date
    total_amount := match lr.total_amount with
                    | some v => some v
                    | none => rr.total_amount
    currency := orStr lr.currency rr.currency }

/-- `all(merged.get(k) is None for k in [...])` (worker.py line 90). -/
def allNull (f : Fields) : Bool :=
  f.doc_type.isNone && f.invoice_number.isNone && f.invoice_date.isNone
    && f.total_amount.isNone && f.currency.isNone

/-- `run_extractor` of worker.py `_process_request`.  With the "llm"
backend: on an LLM result, a fresh regex run is merged in (if the regex run
raises, the `except` falls back to `extract_from_text`, which raises the
same failure again, so the failure propagates); if every merged field is
null the regex result is returned outright; on any LLM failure the regex
result (or its failure) is returned.  With any other backend: the regex
extractor alone. -/
def run_extractor (backend : String) (llm : Except String Fields)
    (document_text : String) : Except ExtractorFailure Fields :=
  if backend == "llm" then
    match llm with
    | .ok lr =>
      match extract_from_text document_text with
      | .ok rr =>
        if allNull (mergeFields lr rr) then .ok rr else .ok (mergeFields lr rr)
      | .error e => .error e
    | .error _ => extract_from_text document_text
  else extract_from_text document_text

/-! ## Persisted jobs (models.py) and the shared state -/

/-- `status` column values (`PENDING | COMPLETED | FAILED`). -/
inductive Status where
  | PENDING
  | COMPLETED
  | FAILED
deriving DecidableEq, Repr

/-- One row of `extraction_requests` (models.py).  `created_at` /
`updated_at` are not modelled (timestamps, no claim mentions them). -/
structure Job where
  id : String
  idempotency_key : String
  status : Status
  document_text : String
  doc_type : Option (List Char)
  invoice_number : Option (List Char)
  invoice_date : Option (List Char)
  total_amount : Option ℚ
  currency : Option (List Char)
  error_code : Option (List Char)
  error_message : Option (List Char)
deriving DecidableEq, Repr

/-- The shared state: the job table, the worker queue, and the worker's
in-memory `_attempts` dict. -/
structure St where
  store : List Job
  queue : List String
  attempts : List (String × Nat)
deriving DecidableEq, Repr

/-- `session.get(ExtractionRequest, request_id)` (primary-key lookup). -/
def findJob (store : List Job) (rid : String) : Option Job :=
  store.find? fun j => j.id == rid

/-- `query(...).filter(idempotency_key == key).one_or_none()`. -/
def findKey (store : List Job) (key : String) : Option Job :=
  store.find? fun j => j.idempotency_key == key

/-- Update every row with primary key `rid` (there is at most one). -/
def updStore (store : List Job) (rid : String) (f : Job → Job) : List Job :=
  store.map fun j => if j.id == rid then f j else j

/-- `self._attempts.get(request_id, 0)`. -/
def getAttempts (l : List (String × Nat)) (rid : String) : Nat :=
  ((l.find? fun p => p.1 == rid).map Prod.snd).getD 0

/-- `self._attempts[request_id] = n`. -/
def setAttempts (l : List (String × Nat)) (rid : String) (n : Nat) : List (String × Nat) :=
  if (l.find? fun p => p.1 == rid).isSome then
    l.map fun p => if p.1 == rid then (p.1, n) else p
  else l ++ [(rid, n)]

/-! ## The Submission Gate (`submit_extraction` in main.py) -/

/-- A freshly created `ExtractionRequest(id, idempotency_key,
status="PENDING", document_text)`; every other column defaults to NULL. -/
def newJob (id key text : String) : Job :=
  { id := id, idempotency_key := key, status := .PENDING, document_text := text,
    doc_type := none, invoice_number := none, invoice_date := none,
    total_amount := none, currency := none, error_code := none, error_message := none }

/-- `submit_extraction` of main.py.  `fid` is the freshly generated
`request_id`; `racer` models a row (id, key, text) committed by a concurrent
caller between the `one_or_none` check and the `flush` — `flush` raises
`IntegrityError` exactly when that row collides on `idempotency_key`, in
which case the handler rolls back (discarding the attempted insert),
re-reads the winner and returns its id and status.  (The code's final
re-`raise`, reachable only for an `IntegrityError` not explained by the
key, has no counterpart in this model, where conflicts are exactly
same-key inserts.)  Only a successful new creation enqueues, after commit. -/
def submitRun (st : St) (key text fid : String)
    (racer : Option (String × String × String)) : (String × Status) × St :=
  match findKey st.store key with
  | some ex => ((ex.id, ex.status), st)
  | none =>
    let store1 := match racer with
      | some (rid, rkey, rtext) => st.store ++ [newJob rid rkey rtext]
      | none => st.store
    match findKey store1 key with
    | some winner => ((winner.id, winner.status), { st with store := store1 })
    | none =>
      ((fid, .PENDING),
       { st with store := store1 ++ [newJob fid key text], queue := st.queue ++ [fid] })

/-- The state after a submission. -/
def submitState (st : St) (key text fid : String)
    (racer : Option (String × String × String)) : St :=
  (submitRun st key text fid racer).2

/-! ## The Worker Loop (`_process_request` in worker.py) -/

/-- One extraction attempt's fault, as discriminated by the `isinstance`
chain of `_process_request`: `TimeoutError` raised by
`execute_with_timeout`, an `ExtractorFailure`, or any other exception
(carrying its `str(ex)`). -/
inductive Failure where
  | timeoutError (msg : List Char)
  | extractorFailure (code message : List Char)
  | otherError (msg : List Char)
deriving DecidableEq, Repr

/-- Outcome of `execute_with_timeout(run_extractor, ...)`. -/
inductive AttemptResult where
  | ok (f : Fields)
  | err (e : Failure)
deriving DecidableEq, Repr

/-- The `error_code` / `error_message` assigned on terminal failure
(worker.py lines 155-174). -/
def failureFields : Failure → List Char × List Char
  | .timeoutError msg => ("EXTRACTOR_TIMEOUT".data, msg)
  | .extractorFailure c m => (c, m)
  | .otherError msg => ("EXTRACTOR_ERROR".data, msg)

/-- The row after the terminal-failure write: status FAILED, all result
columns cleared, error columns from the failure. -/
def failedJob (j : Job) (e : Failure) : Job :=
  { j with status := .FAILED, doc_type := none, invoice_number := none,
           invoice_date := none, total_amount := none, currency := none,
           error_code := some (failureFields e).1,
           error_message := some (failureFields e).2 }

/-- The row after the success write: result columns from the extraction
result, error columns cleared, status COMPLETED. -/
def completedJob (j : Job) (f : Fields) : Job :=
  { j with doc_type := f.doc_type, invoice_number := f.invoice_number,
           invoice_date := f.invoice_date, total_amount := f.total_amount,
           currency := f.currency, error_code := none, error_message := none,
           status := .COMPLETED }

/-- `_process_request` of worker.py, given the outcome of this attempt's
bounded extraction: missing row or non-PENDING status → no-op; success →
COMPLETED write; failure → bump the in-memory attempt counter, then either
re-enqueue (row untouched) or the terminal FAILED write. -/
def processRequest (maxRetries : Nat) (st : St) (rid : String)
    (att : AttemptResult) : St :=
  match findJob st.store rid with
  | none => st
  | some j =>
    if j.status ≠ Status.PENDING then st
    else
      match att with
      | .ok f => { st with store := updStore st.store rid fun j0 => completedJob j0 f }
      | .err e =>
        let n := getAttempts st.attempts rid + 1
        if n ≤ maxRetries then
          { st with attempts := setAttempts st.attempts rid n, queue := st.queue ++ [rid] }
        else
          { st with attempts := setAttempts st.attempts rid n,
                    store := updStore st.store rid fun j0 => failedJob j0 e }

/-- `k` consecutive processings of `rid`, each attempt failing with `e`
(the shape of a job "whose extraction attempt fails every time"). -/
def iterFail (maxRetries : Nat) (e : Failure) (rid : String) : Nat → St → St
  | 0, st => st
  | k + 1, st => processRequest maxRetries (iterFail maxRetries e rid k st) rid (.err e)

/-! ## Reachable states

States reachable through the two entry points that mutate the store: the
Submission Gate and the Worker Loop.  A successful attempt's fields are
constrained to be an actual `run_extractor` output on the job's own
document text (any backend, any LLM behaviour); a failed attempt's fault is
unconstrained (timeouts and unclassified runtime faults can carry
anything). -/
def OkAttempt (st : St) (rid : String) (att : AttemptResult) : Prop :=
  ∀ f, att = .ok f →
    ∃ backend llm j, findJob st.store rid = some j
      ∧ run_extractor backend llm j.document_text = .ok f

inductive Reachable (maxRetries : Nat) : St → Prop where
  | init : Reachable maxRetries ⟨[], [], []⟩
  | submit (st : St) (key text fid : String)
      (racer : Option (String × String × String)) :
      Reachable maxRetries st →
      Reachable maxRetries (submitState st key text fid racer)
  | process (st : St) (rid : String) (att : AttemptResult) :
      Reachable maxRetries st → OkAttempt st rid att →
      Reachable maxRetries (processRequest maxRetries st rid att)

/-! ## Supporting lemmas on the state operations -/

theorem find?_append_left {α : Type} {p : α → Bool} {l1 : List α} (l2 : List α) {x : α}
    (h : l1.find? p = some x) : (l1 ++ l2).find? p = some x := by
  induction l1 with
  | nil => cases h
  | cons a t ih =>
    by_cases hp : p a
    · rw [List.find?_cons_of_pos _ hp] at h
      rw [List.cons_append, List.find?_cons_of_pos _ hp]
      exact h
    · rw [List.find?_cons_of_neg _ (by simpa using hp)] at h
      rw [List.cons_append, List.find?_cons_of_neg _ (by simpa using hp)]
      exact ih h

theorem find?_append_none {α : Type} {p : α → Bool} {l1 : List α} (l2 : List α)
    (h : l1.find? p = none) : (l1 ++ l2).find? p = l2.find? p := by
  induction l1 with
  | nil => rfl
  | cons a t ih =>
    by_cases hp : p a
    · rw [List.find?_cons_of_pos _ hp] at h
      cases h
    · rw [List.find?_cons_of_neg _ (by simpa using hp)] at h
      rw [List.cons_append, List.find?_cons_of_neg _ (by simpa using hp)]
      exact ih h

/-- `find?` commutes with mapping a function that does not change whether
the predicate holds. -/
theorem find?_map_keyinv {α : Type} {u : α → α} {p : α → Bool}
    (hu : ∀ x, p (u x) = p x) (l : List α) :
    (l.map u).find? p = (l.find? p).map u := by
  induction l with
  | nil => rfl
  | cons a t ih =>
    by_cases hp : p a = true
    · rw [List.map_cons, List.find?_cons_of_pos _ (by rw [hu a]; exact hp),
          List.find?_cons_of_pos _ hp, Option.map_some']
    · rw [List.map_cons, List.find?_cons_of_neg _ (by rw [hu a]; simpa using hp),
          List.find?_cons_of_neg _ (by simpa using hp)]
      exact ih

theorem completedJob_id (j : Job) (f : Fields) : (completedJob j f).id = j.id := rfl

theorem failedJob_id (j : Job) (e : Failure) : (failedJob j e).id = j.id := rfl

theorem findJob_updStore (store : List Job) (rid : String) {f : Job → Job}
    (hf : ∀ j, (f j).id = j.id) (id : String) :
    findJob (updStore store rid f) id =
      (findJob store id).map fun j => if j.id == rid then f j else j := by
  unfold findJob updStore
  refine find?_map_keyinv (fun j => ?_) store
  by_cases h : (j.id == rid) = true <;> simp [h, hf]

theorem getAttempts_set_same (l : List (String × Nat)) (rid : String) (n : Nat) :
    getAttempts (setAttempts l rid n) rid = n := by
  have hinv : ∀ q : String × Nat,
      (((if q.1 == rid then (q.1, n) else q) : String × Nat).1 == rid) = (q.1 == rid) := by
    intro q
    by_cases h : (q.1 == rid) = true <;> simp [h]
  unfold getAttempts setAttempts
  rcases hf : l.find? (fun p => p.1 == rid) with _ | p
  · simp only [hf, Option.isSome_none, Bool.false_eq_true, if_false]
    rw [find?_append_none _ hf]
    simp
  · simp only [hf, Option.isSome_some, if_true]
    rw [find?_map_keyinv hinv l, hf]
    have hp : p.1 = rid := by simpa using List.find?_some hf
    simp [hp]

theorem map_id_of_no_key {α : Type} {u : α → α} {p : α → Bool}
    (hu : ∀ x, p x = false → u x = x) {l : List α}
    (h : l.find? p = none) : l.map u = l := by
  have hall := List.find?_eq_none.mp h
  induction l with
  | nil => rfl
  | cons a t ih =>
    rw [List.map_cons]
    have ha : p a = false := by
      have := hall a (by simp)
      simpa using this
    rw [hu a ha]
    congr 1
    exact ih (by
      rw [List.find?_cons_of_neg _ (by simp [ha])] at h
      exact h) (fun x hx => hall x (by simp [hx]))

theorem setAttempts_set (l : List (String × Nat)) (rid : String) (m n : Nat) :
    setAttempts (setAttempts l rid m) rid n = setAttempts l rid n := by
  have hinv : ∀ (k : Nat) (q : String × Nat),
      (((if q.1 == rid then (q.1, k) else q) : String × Nat).1 == rid) = (q.1 == rid) := by
    intro k q
    by_cases h : (q.1 == rid) = true <;> simp [h]
  rcases hf : l.find? (fun p => p.1 == rid) with _ | p
  · have h1 : setAttempts l rid m = l ++ [(rid, m)] := by
      unfold setAttempts
      simp [hf]
    have h2 : (l ++ [(rid, m)]).find? (fun p => p.1 == rid) = some (rid, m) := by
      rw [find?_append_none _ hf]
      simp
    have h3 : l.map (fun p => if p.1 == rid then (p.1, n) else p) = l :=
      map_id_of_no_key (fun x hx => by simp [hx]) hf
    have e1 : setAttempts l rid n = l ++ [(rid, n)] := by
      unfold setAttempts
      simp [hf]
    have e2 : setAttempts (setAttempts l rid m) rid n
        = (l ++ [(rid, m)]).map fun p => if p.1 == rid then (p.1, n) else p := by
      rw [h1]
      unfold setAttempts
      rw [h2]
      simp
    rw [e2, e1, List.map_append, h3]
    simp
  · have h1 : setAttempts l rid m = l.map fun p => if p.1 == rid then (p.1, m) else p := by
      unfold setAttempts
      simp [hf]
    have h2 : (l.map fun p => if p.1 == rid then (p.1, m) else p).find?
        (fun p => p.1 == rid) = some (if p.1 == rid then (p.1, m) else p) := by
      rw [find?_map_keyinv (hinv m) l, hf, Option.map_some']
    have e1 : setAttempts l rid n = l.map fun p => if p.1 == rid then (p.1, n) else p := by
      unfold setAttempts
      simp [hf]
    have e2 : setAttempts (setAttempts l rid m) rid n
        = (l.map fun p => if p.1 == rid then (p.1, m) else p).map
            fun p => if p.1 == rid then (p.1, n) else p := by
      rw [h1]
      unfold setAttempts
      rw [h2]
      simp
    rw [e2, e1, List.map_map]
    refine congrArg (fun g => List.map g l) ?_
    funext q
    by_cases h : (q.1 == rid) = true
    · have hq : q.1 = rid := by simpa using h
      simp [hq]
    · have hq : ¬q.1 = rid := by simpa using h
      simp [hq]

theorem countP_zero_of_find?_none {α : Type} {p : α → Bool} {l : List α}
    (h : l.find? p = none) : l.countP p = 0 := by
  rw [List.countP_eq_zero]
  exact fun a ha => by simpa using List.find?_eq_none.mp h a ha

/-! ## Single-step characterizations of `_process_request` -/

theorem processRequest_missing {mr : Nat} {st : St} {rid : String} {att : AttemptResult}
    (h : findJob st.store rid = none) : processRequest mr st rid att = st := by
  unfold processRequest
  rw [h]

theorem processRequest_notPending {mr : Nat} {st : St} {rid : String} {att : AttemptResult}
    {j : Job} (h : findJob st.store rid = some j) (hs : j.status ≠ Status.PENDING) :
    processRequest mr st rid att = st := by
  unfold processRequest
  rw [h]
  simp [hs]

theorem processRequest_ok {mr : Nat} {st : St} {rid : String} {f : Fields} {j : Job}
    (h : findJob st.store rid = some j) (hs : j.status = Status.PENDING) :
    processRequest mr st rid (.ok f)
      = { st with store := updStore st.store rid fun j0 => completedJob j0 f } := by
  unfold processRequest
  rw [h]
  simp [hs]

theorem processRequest_retry {mr : Nat} {st : St} {rid : String} {e : Failure} {j : Job}
    (h : findJob st.store rid = some j) (hs : j.status = Status.PENDING)
    (hn : getAttempts st.attempts rid + 1 ≤ mr) :
    processRequest mr st rid (.err e)
      = { st with attempts := setAttempts st.attempts rid (getAttempts st.attempts rid + 1),
                  queue := st.queue ++ [rid] } := by
  unfold processRequest
  rw [h]
  simp [hs, hn]

theorem processRequest_fail {mr : Nat} {st : St} {rid : String} {e : Failure} {j : Job}
    (h : findJob st.store rid = some j) (hs : j.status = Status.PENDING)
    (hn : ¬(getAttempts st.attempts rid + 1 ≤ mr)) :
    processRequest mr st rid (.err e)
      = { st with attempts := setAttempts st.attempts rid (getAttempts st.attempts rid + 1),
                  store := updStore st.store rid fun j0 => failedJob j0 e } := by
  unfold processRequest
  rw [h]
  simp [hs, hn]

/-- A found row's id satisfies the lookup predicate. -/
theorem findJob_id {store : List Job} {rid : String} {j : Job}
    (h : findJob store rid = some j) : j.id = rid := by
  have := List.find?_some h
  simpa using this

/-! ## Iterated failing attempts (for the retry-bound claim) -/

theorem iterFail_phase (mr : Nat) (e : Failure) (rid : String) (st0 : St) (j : Job)
    (hfind : findJob st0.store rid = some j) (hpend : j.status = Status.PENDING)
    (hatt : getAttempts st0.attempts rid = 0) :
    ∀ k, k ≤ mr →
      iterFail mr e rid k st0
        = { store := st0.store, queue := st0.queue ++ List.replicate k rid,
            attempts := if k = 0 then st0.attempts else setAttempts st0.attempts rid k } := by
  intro k
  induction k with
  | zero =>
    intro _
    cases st0
    simp [iterFail]
  | succ k ih =>
    intro hk
    have hk' : k ≤ mr := by omega
    have hstk := ih hk'
    have hattk : getAttempts (iterFail mr e rid k st0).attempts rid = k := by
      rw [hstk]
      by_cases h0 : k = 0
      · simp [h0, hatt]
      · simp [h0, getAttempts_set_same]
    have hfk : findJob (iterFail mr e rid k st0).store rid = some j := by
      rw [hstk]
      exact hfind
    have hstep := @processRequest_retry mr (iterFail mr e rid k st0) rid e j hfk hpend
      (by rw [hattk]; omega)
    show processRequest mr (iterFail mr e rid k st0) rid (.err e) = _
    rw [hstep, hattk, hstk]
    refine congrArg₂ (fun q a => St.mk st0.store q a) ?_ ?_
    · rw [List.append_assoc]
      congr 1
      rw [← List.replicate_succ' k rid]
    · by_cases h0 : k = 0
      · simp [h0]
      · simp only [h0, if_false, Nat.succ_ne_zero]
        rw [setAttempts_set]

theorem iterFail_terminal (mr : Nat) (e : Failure) (rid : String) (st0 : St) (j : Job)
    (hfind : findJob st0.store rid = some j) (hpend : j.status = Status.PENDING)
    (hatt : getAttempts st0.attempts rid = 0) :
    iterFail mr e rid (mr + 1) st0
      = { store := updStore st0.store rid fun j0 => failedJob j0 e,
          queue := st0.queue ++ List.replicate mr rid,
          attempts := setAttempts st0.attempts rid (mr + 1) } := by
  have hstk := iterFail_phase mr e rid st0 j hfind hpend hatt mr (le_refl mr)
  have hattk : getAttempts (iterFail mr e rid mr st0).attempts rid = mr := by
    rw [hstk]
    by_cases h0 : mr = 0
    · simp [h0, hatt]
    · simp [h0, getAttempts_set_same]
  have hfk : findJob (iterFail mr e rid mr st0).store rid = some j := by
    rw [hstk]
    exact hfind
  have hstep := @processRequest_fail mr (iterFail mr e rid mr st0) rid e j hfk hpend
    (by rw [hattk]; omega)
  show processRequest mr (iterFail mr e rid mr st0) rid (.err e) = _
  rw [hstep, hattk, hstk]
  refine congrArg₂ (fun s a => St.mk s (st0.queue ++ List.replicate mr rid) a) rfl ?_
  by_cases h0 : mr = 0
  · simp [h0]
  · simp only [h0, if_false]
    rw [setAttempts_set]

theorem iterFail_frozen (mr : Nat) (e : Failure) (rid : String) (st0 : St) (j : Job)
    (hfind : findJob st0.store rid = some j) (hpend : j.status = Status.PENDING)
    (hatt : getAttempts st0.attempts rid = 0) :
    ∀ k, iterFail mr e rid (mr + 1 + k) st0 = iterFail mr e rid (mr + 1) st0 := by
  have hterm := iterFail_terminal mr e rid st0 j hfind hpend hatt
  have hfF : findJob (iterFail mr e rid (mr + 1) st0).store rid = some (failedJob j e) := by
    rw [hterm]
    show findJob (updStore st0.store rid fun j0 => failedJob j0 e) rid = _
    rw [findJob_updStore st0.store rid (fun j0 => failedJob_id j0 e) rid, hfind]
    simp [findJob_id hfind]
  intro k
  induction k with
  | zero => rfl
  | succ k ih =>
    have : mr + 1 + (k + 1) = (mr + 1 + k) + 1 := by omega
    rw [this]
    show processRequest mr (iterFail mr e rid (mr + 1 + k) st0) rid (.err e) = _
    rw [ih]
    exact processRequest_notPending hfF (by simp [failedJob])

/-! ## Claim theorems -/

/-- Number of stored jobs carrying an idempotency key. -/
def countKey (store : List Job) (key : String) : Nat :=
  store.countP fun j => j.idempotency_key == key

/-- C1.  Submitting the same `idempotency_key` twice returns the same
`request_id` both times with the job's current status, creates exactly one
job, and enqueues that job id at most once; an idempotent hit neither
creates nor enqueues anything.  Conjuncts: (1) before the first submission
no job carries the key; (2) the first (fresh, conflict-free) submission
returns `(fid, PENDING)`, appends exactly the one new job and enqueues its
id once; (3) afterwards exactly one job carries the key; (4) any submission
that finds a job with the key returns that job's id and current status and
leaves the whole state untouched — in particular the second submission of
the same key; (5) a submission losing the uniqueness race to a concurrent
insert of the same key returns the winner's id and status, discards its own
insert, enqueues nothing, and (6) exactly one job carries the key. -/
theorem C1_idempotent_submission (st : St) (key text fid : String)
    (hnone : findKey st.store key = none) :
    countKey st.store key = 0
    ∧ submitRun st key text fid none
        = ((fid, Status.PENDING),
           { st with store := st.store ++ [newJob fid key text],
                     queue := st.queue ++ [fid] })
    ∧ countKey (st.store ++ [newJob fid key text]) key = 1
    ∧ (∀ st2 j, findKey st2.store key = some j →
        ∀ t2 f2 rc, submitRun st2 key t2 f2 rc = ((j.id, j.status), st2))
    ∧ (∀ rid rtext, submitRun st key text fid (some (rid, key, rtext))
        = ((rid, Status.PENDING), { st with store := st.store ++ [newJob rid key rtext] }))
    ∧ (∀ rid rtext, countKey (st.store ++ [newJob rid key rtext]) key = 1) := by
  have hcount0 : countKey st.store key = 0 := countP_zero_of_find?_none hnone
  refine ⟨hcount0, ?_, ?_, ?_, ?_, ?_⟩
  · unfold submitRun
    rw [hnone]
    simp only []
    rw [hnone]
  · unfold countKey
    rw [List.countP_append]
    unfold countKey at hcount0
    rw [hcount0]
    simp [newJob]
  · intro st2 j hj t2 f2 rc
    unfold submitRun
    rw [hj]
  · intro rid rtext
    unfold submitRun
    rw [hnone]
    simp only []
    have : findKey (st.store ++ [newJob rid key rtext]) key = some (newJob rid key rtext) := by
      unfold findKey at hnone ⊢
      rw [find?_append_none _ hnone]
      simp [newJob]
    rw [this]
    rfl
  · intro rid rtext
    unfold countKey
    rw [List.countP_append]
    unfold countKey at hcount0
    rw [hcount0]
    simp [newJob]

/-- C1 witness: the fresh-then-hit scenario at concrete inputs. -/
theorem C1_idempotent_submission_witness :
    submitRun ⟨[], [], []⟩ "key-1" "doc" "req_1" none
        = (("req_1", Status.PENDING),
           { store := [newJob "req_1" "key-1" "doc"], queue := ["req_1"], attempts := [] })
    ∧ submitRun ⟨[newJob "req_1" "key-1" "doc"], ["req_1"], []⟩ "key-1" "doc2" "req_2" none
        = (("req_1", Status.PENDING),
           ⟨[newJob "req_1" "key-1" "doc"], ["req_1"], []⟩) := by
  have h := C1_idempotent_submission ⟨[], [], []⟩ "key-1" "doc" "req_1" (by rfl)
  refine ⟨h.2.1, ?_⟩
  exact h.2.2.2.1 ⟨[newJob "req_1" "key-1" "doc"], ["req_1"], []⟩
    (newJob "req_1" "key-1" "doc") (by rfl) "doc2" "req_2" none

/-- C2.  A job whose extraction fails on every attempt is processed exactly
`max_retries + 1` times: after each of the first `max_retries` failing
attempts the row is untouched (still the original PENDING row `j`) and the
id has been re-enqueued once per attempt; the `(max_retries + 1)`-st attempt
writes the terminal FAILED row, whose `error_code`/`error_message` are
`EXTRACTOR_TIMEOUT`/`str(ex)` for a timeout, the failure's own code and
message for a typed extractor failure, and `EXTRACTOR_ERROR`/`str(ex)` for
any other fault; and every attempt after that leaves the state exactly as
the terminal one left it. -/
theorem C2_retry_bound (mr : Nat) (e : Failure) (st0 : St) (rid : String) (j : Job)
    (hfind : findJob st0.store rid = some j) (hpend : j.status = Status.PENDING)
    (hatt : getAttempts st0.attempts rid = 0) :
    (∀ k, k ≤ mr →
       (iterFail mr e rid k st0).store = st0.store
       ∧ (iterFail mr e rid k st0).queue = st0.queue ++ List.replicate k rid)
    ∧ findJob (iterFail mr e rid (mr + 1) st0).store rid = some (failedJob j e)
    ∧ (failedJob j e).status = Status.FAILED
    ∧ (∀ msg, e = .timeoutError msg →
        (failedJob j e).error_code = some "EXTRACTOR_TIMEOUT".data
        ∧ (failedJob j e).error_message = some msg)
    ∧ (∀ c m, e = .extractorFailure c m →
        (failedJob j e).error_code = some c ∧ (failedJob j e).error_message = some m)
    ∧ (∀ msg, e = .otherError msg →
        (failedJob j e).error_code = some "EXTRACTOR_ERROR".data
        ∧ (failedJob j e).error_message = some msg)
    ∧ (∀ k, iterFail mr e rid (mr + 1 + k) st0 = iterFail mr e rid (mr + 1) st0) := by
  refine ⟨?_, ?_, rfl, ?_, ?_, ?_, iterFail_frozen mr e rid st0 j hfind hpend hatt⟩
  · intro k hk
    rw [iterFail_phase mr e rid st0 j hfind hpend hatt k hk]
    exact ⟨rfl, rfl⟩
  · rw [iterFail_terminal mr e rid st0 j hfind hpend hatt]
    show findJob (updStore st0.store rid fun j0 => failedJob j0 e) rid = _
    rw [findJob_updStore st0.store rid (fun j0 => failedJob_id j0 e) rid, hfind]
    simp [findJob_id hfind]
  · intro msg hsub
    subst hsub
    exact ⟨rfl, rfl⟩
  · intro c m hsub
    subst hsub
    exact ⟨rfl, rfl⟩
  · intro msg hsub
    subst hsub
    exact ⟨rfl, rfl⟩

/-- C2 witness: `max_retries = 1`, a PENDING job, a timeout failure on
every attempt; one retry leaves the row untouched, the second attempt
fails it terminally with `EXTRACTOR_TIMEOUT`. -/
theorem C2_retry_bound_witness :
    (iterFail 1 (.timeoutError "t".data) "req_1" 1 ⟨[newJob "req_1" "k1" "doc"], [], []⟩).store
        = [newJob "req_1" "k1" "doc"]
    ∧ findJob (iterFail 1 (.timeoutError "t".data) "req_1" 2
          ⟨[newJob "req_1" "k1" "doc"], [], []⟩).store "req_1"
        = some (failedJob (newJob "req_1" "k1" "doc") (.timeoutError "t".data))
    ∧ (failedJob (newJob "req_1" "k1" "doc") (.timeoutError "t".data)).error_code
        = some "EXTRACTOR_TIMEOUT".data := by
  have h := C2_retry_bound 1 (.timeoutError "t".data) ⟨[newJob "req_1" "k1" "doc"], [], []⟩
    "req_1" (newJob "req_1" "k1" "doc") (by rfl) (by rfl) (by rfl)
  exact ⟨(h.1 1 (by omega)).1, h.2.1, (h.2.2.2.1 "t".data rfl).1⟩

/-- C9.  A failing attempt that is still within the retry budget (the bumped
in-memory counter does not exceed `max_retries`) leaves the whole job table
unchanged — the row keeps status PENDING and every result, error and payload
column — and appends the same job id to the queue once. -/
theorem C9_retry_frame (mr : Nat) (st : St) (rid : String) (j : Job) (e : Failure)
    (hfind : findJob st.store rid = some j) (hpend : j.status = Status.PENDING)
    (hn : getAttempts st.attempts rid + 1 ≤ mr) :
    (processRequest mr st rid (.err e)).store = st.store
    ∧ (processRequest mr st rid (.err e)).queue = st.queue ++ [rid] := by
  rw [processRequest_retry hfind hpend hn]
  exact ⟨rfl, rfl⟩

/-- C9 witness at concrete inputs (`max_retries = 3`, first failure). -/
theorem C9_retry_frame_witness :
    (processRequest 3 ⟨[newJob "req_1" "k1" "doc"], [], []⟩ "req_1"
        (.err (.otherError "boom".data))).store = [newJob "req_1" "k1" "doc"]
    ∧ (processRequest 3 ⟨[newJob "req_1" "k1" "doc"], [], []⟩ "req_1"
        (.err (.otherError "boom".data))).queue = [] ++ ["req_1"] :=
  C9_retry_frame 3 ⟨[newJob "req_1" "k1" "doc"], [], []⟩ "req_1"
    (newJob "req_1" "k1" "doc") (.otherError "boom".data) (by rfl) (by rfl) (by decide)

/-- C4.  Status is monotone: across one worker processing step every stored
row either keeps its status or moves from PENDING to COMPLETED or FAILED;
processing a missing id, or a row that is not PENDING, changes nothing at
all; and a submission step never changes any existing row. -/
theorem C4_monotonic_status (mr : Nat) (st : St) (rid : String) (att : AttemptResult) :
    (∀ id j j', findJob st.store id = some j →
       findJob (processRequest mr st rid att).store id = some j' →
       j'.status = j.status
       ∨ (j.status = Status.PENDING
          ∧ (j'.status = Status.COMPLETED ∨ j'.status = Status.FAILED)))
    ∧ (findJob st.store rid = none → processRequest mr st rid att = st)
    ∧ (∀ j, findJob st.store rid = some j → j.status ≠ Status.PENDING →
        processRequest mr st rid att = st)
    ∧ (∀ key text fid racer id j j', findJob st.store id = some j →
        findJob (submitState st key text fid racer).store id = some j' → j' = j) := by
  refine ⟨?_, fun h => processRequest_missing h, fun j h hs => processRequest_notPending h hs, ?_⟩
  · intro id j j' hj hj'
    rcases hf : findJob st.store rid with _ | j0
    · rw [processRequest_missing hf] at hj'
      rw [hj] at hj'
      cases hj'
      exact Or.inl rfl
    · by_cases hs : j0.status = Status.PENDING
      · cases att with
        | ok f =>
          rw [processRequest_ok hf hs] at hj'
          rw [findJob_updStore st.store rid (fun j0 => completedJob_id j0 f) id, hj] at hj'
          cases hj'
          by_cases hid : (j.id == rid) = true
          · have hid' : id = rid := by
              have := findJob_id hj
              simp only [this] at hid
              simpa using hid
            subst hid'
            rw [hj] at hf
            cases hf
            simp only [hid, if_true]
            exact Or.inr ⟨hs, Or.inl rfl⟩
          · exact Or.inl (by simp [hid])
        | err e =>
          by_cases hn : getAttempts st.attempts rid + 1 ≤ mr
          · rw [processRequest_retry hf hs hn] at hj'
            rw [hj] at hj'
            cases hj'
            exact Or.inl rfl
          · rw [processRequest_fail hf hs hn] at hj'
            rw [findJob_updStore st.store rid (fun j0 => failedJob_id j0 e) id, hj] at hj'
            cases hj'
            by_cases hid : (j.id == rid) = true
            · have hid' : id = rid := by
                have := findJob_id hj
                simp only [this] at hid
                simpa using hid
              subst hid'
              rw [hj] at hf
              cases hf
              simp only [hid, if_true]
              exact Or.inr ⟨hs, Or.inr rfl⟩
            · exact Or.inl (by simp [hid])
      · rw [processRequest_notPending hf hs] at hj'
        rw [hj] at hj'
        cases hj'
        exact Or.inl rfl
  · intro key text fid racer id j j' hj hj'
    have hsuf : ∃ suf, (submitState st key text fid racer).store = st.store ++ suf := by
      unfold submitState submitRun
      rcases hk : findKey st.store key with _ | ex
      · rcases racer with _ | ⟨rid2, rkey, rtext⟩
        · simp only [hk]
          exact ⟨[newJob fid key text], rfl⟩
        · simp only [hk]
          rcases hk2 : findKey (st.store ++ [newJob rid2 rkey rtext]) key with _ | w
          · simp only [hk2]
            exact ⟨[newJob rid2 rkey rtext] ++ [newJob fid key text],
              by rw [List.append_assoc]⟩
          · simp only [hk2]
            exact ⟨[newJob rid2 rkey rtext], rfl⟩
      · simp only [hk]
        exact ⟨[], (List.append_nil _).symm⟩
    obtain ⟨suf, hsuf⟩ := hsuf
    rw [hsuf] at hj'
    unfold findJob at hj hj'
    rw [find?_append_left suf hj] at hj'
    cases hj'
    rfl

/-- C4 witness: processing a COMPLETED job is a strict no-op. -/
theorem C4_monotonic_status_witness :
    processRequest 3 ⟨[completedJob (newJob "req_1" "k1" "doc") (heuristicFields "doc")], [], []⟩
        "req_1" (.err (.otherError "x".data))
      = ⟨[completedJob (newJob "req_1" "k1" "doc") (heuristicFields "doc")], [], []⟩ :=
  (C4_monotonic_status 3
      ⟨[completedJob (newJob "req_1" "k1" "doc") (heuristicFields "doc")], [], []⟩
      "req_1" (.err (.otherError "x".data))).2.2.1
    (completedJob (newJob "req_1" "k1" "doc") (heuristicFields "doc"))
    (by rfl) (by simp [completedJob])

/-! ## Result/error exclusivity (C3) -/

/-- The result-field group is all NULL. -/
def resNull (j : Job) : Bool :=
  j.doc_type.isNone && j.invoice_number.isNone && j.invoice_date.isNone
    && j.total_amount.isNone && j.currency.isNone

/-- The error-field group is all NULL. -/
def errNull (j : Job) : Bool :=
  j.error_code.isNone && j.error_message.isNone

theorem extract_ok_eq {text : String} {f : Fields}
    (h : extract_from_text text = .ok f) : f = heuristicFields text := by
  unfold extract_from_text at h
  split at h
  · cases h
  · cases h
    rfl

theorem orStr_some_right (a : Option (List Char)) (s : List Char) :
    (orStr a (some s)).isSome := by
  unfold orStr
  cases a with
  | none => rfl
  | some t => by_cases ht : t.isEmpty <;> simp [ht]

/-- Any successful `run_extractor` result has a non-null `doc_type` (the
regex extractor always classifies, and every merge path keeps a
classification). -/
theorem run_extractor_doc_type {backend : String} {llm : Except String Fields}
    {text : String} {f : Fields} (h : run_extractor backend llm text = .ok f) :
    f.doc_type.isSome := by
  have hheur : ∀ g : Fields, g = heuristicFields text → g.doc_type.isSome := by
    intro g hg
    rw [hg]
    rfl
  by_cases hb : (backend == "llm") = true
  · rw [run_extractor.eq_def, if_pos hb] at h
    cases llm with
    | error s => exact hheur f (extract_ok_eq h)
    | ok lr =>
      rcases he : extract_from_text text with e | rr
      · rw [he] at h
        cases h
      · rw [he] at h
        simp only [] at h
        by_cases hall : allNull (mergeFields lr rr) = true
        · rw [if_pos hall] at h
          cases h
          exact hheur _ (extract_ok_eq he)
        · rw [if_neg hall] at h
          cases h
          have hdo : rr.doc_type = some (detect_doc_type text) := by
            rw [extract_ok_eq he]
            rfl
          show (orStr lr.doc_type rr.doc_type).isSome
          rw [hdo]
          exact orStr_some_right _ _
  · rw [run_extractor.eq_def, if_neg hb] at h
    exact hheur f (extract_ok_eq h)

/-- The per-row invariant maintained by every reachable state. -/
def JobOK (j : Job) : Prop :=
  (j.status = Status.PENDING → resNull j = true ∧ errNull j = true)
  ∧ (j.status = Status.COMPLETED → errNull j = true ∧ j.doc_type.isSome)
  ∧ (j.status = Status.FAILED →
      resNull j = true ∧ j.error_code.isSome ∧ j.error_message.isSome)

theorem newJob_ok (id key text : String) : JobOK (newJob id key text) := by
  refine ⟨fun _ => ⟨rfl, rfl⟩, fun h => ?_, fun h => ?_⟩ <;> cases h

theorem submitState_mem {st : St} {key text fid : String}
    {racer : Option (String × String × String)} {j' : Job}
    (h : j' ∈ (submitState st key text fid racer).store) :
    j' ∈ st.store ∨ ∃ a b c, j' = newJob a b c := by
  unfold submitState submitRun at h
  rcases hk : findKey st.store key with _ | ex
  · rcases racer with _ | ⟨rid2, rkey, rtext⟩
    · simp only [hk] at h
      rcases List.mem_append.mp h with h1 | h1
      · exact Or.inl h1
      · exact Or.inr ⟨fid, key, text, by simpa using h1⟩
    · simp only [hk] at h
      rcases hk2 : findKey (st.store ++ [newJob rid2 rkey rtext]) key with _ | w
      · simp only [hk2] at h
        rcases List.mem_append.mp h with h1 | h1
        · rcases List.mem_append.mp h1 with h2 | h2
          · exact Or.inl h2
          · exact Or.inr ⟨rid2, rkey, rtext, by simpa using h2⟩
        · exact Or.inr ⟨fid, key, text, by simpa using h1⟩
      · simp only [hk2] at h
        rcases List.mem_append.mp h with h1 | h1
        · exact Or.inl h1
        · exact Or.inr ⟨rid2, rkey, rtext, by simpa using h1⟩
  · simp only [hk] at h
    exact Or.inl h

theorem completedJob_ok (j : Job) (f : Fields) (hd : f.doc_type.isSome) :
    JobOK (completedJob j f) := by
  refine ⟨fun h => ?_, fun _ => ⟨rfl, hd⟩, fun h => ?_⟩ <;> cases h

theorem failedJob_ok (j : Job) (e : Failure) : JobOK (failedJob j e) := by
  refine ⟨fun h => ?_, fun h => ?_, fun _ => ⟨rfl, rfl, rfl⟩⟩ <;> cases h

theorem updStore_mem {store : List Job} {rid : String} {f : Job → Job} {j' : Job}
    (h : j' ∈ updStore store rid f) :
    ∃ j ∈ store, j' = if j.id == rid then f j else j := by
  unfold updStore at h
  rcases List.mem_map.mp h with ⟨j, hj, hj'⟩
  exact ⟨j, hj, hj'.symm⟩

/-- Every job row in a reachable state satisfies the invariant. -/
theorem reachable_jobOK {mr : Nat} {st : St} (h : Reachable mr st) :
    ∀ j ∈ st.store, JobOK j := by
  induction h with
  | init => intro j hj; cases hj
  | submit st key text fid racer _ ih =>
    intro j' hj'
    rcases submitState_mem hj' with h1 | ⟨a, b, c, rfl⟩
    · exact ih j' h1
    · exact newJob_ok a b c
  | process st rid att _ hok ih =>
    intro j' hj'
    rcases hf : findJob st.store rid with _ | j0
    · rw [processRequest_missing hf] at hj'
      exact ih j' hj'
    · by_cases hs : j0.status = Status.PENDING
      · cases att with
        | ok f =>
          rw [processRequest_ok hf hs] at hj'
          rcases updStore_mem hj' with ⟨j, hj, rfl⟩
          by_cases hid : (j.id == rid) = true
          · simp only [hid, if_true]
            rcases hok f rfl with ⟨backend, llm, jx, hjx, hrun⟩
            exact completedJob_ok j f (run_extractor_doc_type hrun)
          · simp only [hid, Bool.false_eq_true, if_false]
            exact ih j hj
        | err e =>
          by_cases hn : getAttempts st.attempts rid + 1 ≤ mr
          · rw [processRequest_retry hf hs hn] at hj'
            exact ih j' hj'
          · rw [processRequest_fail hf hs hn] at hj'
            rcases updStore_mem hj' with ⟨j, hj, rfl⟩
            by_cases hid : (j.id == rid) = true
            · simp only [hid, if_true]
              exact failedJob_ok j e
            · simp only [hid, Bool.false_eq_true, if_false]
              exact ih j hj
      · rw [processRequest_notPending hf hs] at hj'
        exact ih j' hj'

/-- The state reached by one fresh submission from the empty state. -/
def c3State : St := submitState ⟨[], [], []⟩ "k1" "doc" "req_1" none

/-- C3 counterexample.  The claim as stated says exactly one of
{result fields all-null, error fields all-null} holds in every reachable
record; but in the reachable record freshly created by the Submission Gate
(status PENDING) both groups are all-null at once, so "exactly one" fails
there. -/
theorem C3_counterexample :
    Reachable 3 c3State
    ∧ findJob c3State.store "req_1" = some (newJob "req_1" "k1" "doc")
    ∧ (newJob "req_1" "k1" "doc").status = Status.PENDING
    ∧ resNull (newJob "req_1" "k1" "doc") = true
    ∧ errNull (newJob "req_1" "k1" "doc") = true
    ∧ Bool.xor (resNull (newJob "req_1" "k1" "doc")) (errNull (newJob "req_1" "k1" "doc"))
        = false :=
  ⟨Reachable.submit _ "k1" "doc" "req_1" none Reachable.init, by rfl, rfl, rfl, rfl, rfl⟩

/-- C3 (amended).  In every reachable job record, while status = PENDING
both field groups are all null, and in every record whose status is not
PENDING exactly one of {result fields all null, error fields all null}
holds; and every worker transition that changes a stored row either sets
status COMPLETED with the error fields cleared and the result group
populated, or sets status FAILED with the result fields cleared and the
error group populated — never partially. -/
theorem C3_result_error_exclusivity (mr : Nat) (st : St) (h : Reachable mr st) :
    (∀ j ∈ st.store,
       (j.status = Status.PENDING → resNull j = true ∧ errNull j = true)
       ∧ (j.status ≠ Status.PENDING → Bool.xor (resNull j) (errNull j) = true))
    ∧ (∀ rid att, OkAttempt st rid att → ∀ id j j',
        findJob st.store id = some j →
        findJob (processRequest mr st rid att).store id = some j' → j' ≠ j →
        (j'.status = Status.COMPLETED ∧ errNull j' = true ∧ resNull j' = false)
        ∨ (j'.status = Status.FAILED ∧ resNull j' = true ∧ errNull j' = false)) := by
  constructor
  · intro j hj
    have hok := reachable_jobOK h j hj
    refine ⟨hok.1, fun hnp => ?_⟩
    cases hstatus : j.status with
    | PENDING => exact absurd hstatus hnp
    | COMPLETED =>
      obtain ⟨he, hd⟩ := hok.2.1 hstatus
      have hres : resNull j = false := by
        unfold resNull
        rcases Option.isSome_iff_exists.mp hd with ⟨v, hv⟩
        simp [hv]
      rw [hres, he]
      rfl
    | FAILED =>
      obtain ⟨hr, hc, hm⟩ := hok.2.2 hstatus
      have herr : errNull j = false := by
        unfold errNull
        rcases Option.isSome_iff_exists.mp hc with ⟨v, hv⟩
        simp [hv]
      rw [herr, hr]
      rfl
  · intro rid att hatt id j j' hj hj' hne
    rcases hf : findJob st.store rid with _ | j0
    · rw [processRequest_missing hf] at hj'
      rw [hj] at hj'
      cases hj'
      exact absurd rfl hne
    · by_cases hs : j0.status = Status.PENDING
      · cases att with
        | ok f =>
          rw [processRequest_ok hf hs] at hj'
          rw [findJob_updStore st.store rid (fun j0 => completedJob_id j0 f) id, hj] at hj'
          cases hj'
          by_cases hid : (j.id == rid) = true
          · simp only [hid, if_true]
            left
            refine ⟨rfl, rfl, ?_⟩
            obtain ⟨b, llm, jx, hjx, hrun⟩ := hatt f rfl
            have hd := run_extractor_doc_type hrun
            rcases Option.isSome_iff_exists.mp hd with ⟨v, hv⟩
            unfold resNull completedJob
            simp [hv]
          · exact absurd (by simp [hid]) hne
        | err e =>
          by_cases hn : getAttempts st.attempts rid + 1 ≤ mr
          · rw [processRequest_retry hf hs hn] at hj'
            rw [hj] at hj'
            cases hj'
            exact absurd rfl hne
          · rw [processRequest_fail hf hs hn] at hj'
            rw [findJob_updStore st.store rid (fun j0 => failedJob_id j0 e) id, hj] at hj'
            cases hj'
            by_cases hid : (j.id == rid) = true
            · simp only [hid, if_true]
              right
              exact ⟨rfl, rfl, rfl⟩
            · exact absurd (by simp [hid]) hne
      · rw [processRequest_notPending hf hs] at hj'
        rw [hj] at hj'
        cases hj'
        exact absurd rfl hne

/-- C3 witness: the invariant instantiated at a concretely reachable state
(the record created by one submission, where PENDING forces both groups
all-null). -/
theorem C3_result_error_exclusivity_witness :
    resNull (newJob "req_1" "k1" "doc") = true ∧ errNull (newJob "req_1" "k1" "doc") = true :=
  ((C3_result_error_exclusivity 3 c3State
      (Reachable.submit _ "k1" "doc" "req_1" none Reachable.init)).1
    (newJob "req_1" "k1" "doc") (List.mem_cons_self _ _)).1 rfl

/-- C6.  The heuristic extractor raises a typed failure if and only if the
input text contains the sentinel marker, that failure always carries code
`EXTRACTOR_TIMEOUT` (with the fixed message), and on every other input it
returns the heuristic field mapping without raising. -/
theorem C6_sentinel_failure (text : String) :
    (listContains text.data sentinelMarker.data = true →
       extract_from_text text
         = .error ⟨"EXTRACTOR_TIMEOUT".data,
                   "Extraction process timed out after 30 seconds".data⟩)
    ∧ (∀ e, extract_from_text text = .error e →
        listContains text.data sentinelMarker.data = true
        ∧ e.code = "EXTRACTOR_TIMEOUT".data)
    ∧ (listContains text.data sentinelMarker.data = false →
        extract_from_text text = .ok (heuristicFields text)) := by
  by_cases hs : listContains text.data sentinelMarker.data = true
  · refine ⟨fun _ => ?_, fun e he => ?_, fun hns => absurd hs (by simp [hns])⟩
    · rw [extract_from_text, if_pos hs]
    · exact ⟨hs, by
        rw [extract_from_text, if_pos hs] at he
        cases he
        rfl⟩
  · refine ⟨fun h => absurd h hs, fun e he => ?_, fun _ => ?_⟩
    · rw [extract_from_text, if_neg hs] at he
      cases he
    · rw [extract_from_text, if_neg hs]

/-- C6 witness: a text containing the sentinel fails with
`EXTRACTOR_TIMEOUT`; a plain text succeeds. -/
theorem C6_sentinel_failure_witness :
    extract_from_text "abc <<TRIGGER_EXTRACTOR_FAILURE>> def"
      = .error ⟨"EXTRACTOR_TIMEOUT".data,
                "Extraction process timed out after 30 seconds".data⟩
    ∧ extract_from_text "hello" = .ok (heuristicFields "hello") :=
  ⟨(C6_sentinel_failure "abc <<TRIGGER_EXTRACTOR_FAILURE>> def").1 (by decide),
   (C6_sentinel_failure "hello").2.2 (by decide)⟩

/-- C10.  Whenever the heuristic extractor returns (i.e. the sentinel is
absent), `doc_type` is never null and is exactly one of "invoice",
"receipt", "unknown": "invoice" whenever the uppercased text contains
"INVOICE" (even if it also contains "RECEIPT"), "receipt" when only
"RECEIPT" occurs, "unknown" otherwise. -/
theorem C10_doc_type (text : String) (f : Fields)
    (hok : extract_from_text text = .ok f) :
    (f.doc_type = some "invoice".data ∨ f.doc_type = some "receipt".data
       ∨ f.doc_type = some "unknown".data)
    ∧ (listContains (text.data.map Char.toUpper) "INVOICE".data = true →
        f.doc_type = some "invoice".data)
    ∧ (listContains (text.data.map Char.toUpper) "INVOICE".data = false →
        listContains (text.data.map Char.toUpper) "RECEIPT".data = true →
        f.doc_type = some "receipt".data)
    ∧ (listContains (text.data.map Char.toUpper) "INVOICE".data = false →
        listContains (text.data.map Char.toUpper) "RECEIPT".data = false →
        f.doc_type = some "unknown".data) := by
  have hf : f.doc_type = some (detect_doc_type text) := by
    rw [extract_ok_eq hok]
    rfl
  rw [hf]
  unfold detect_doc_type
  by_cases hi : listContains (text.data.map Char.toUpper) "INVOICE".data = true
  · rw [if_pos hi]
    exact ⟨Or.inl rfl, fun _ => rfl, fun h _ => absurd hi (by simp [h]),
           fun h _ => absurd hi (by simp [h])⟩
  · by_cases hr : listContains (text.data.map Char.toUpper) "RECEIPT".data = true
    · rw [if_neg hi, if_pos hr]
      exact ⟨Or.inr (Or.inl rfl), fun h => absurd h hi, fun _ _ => rfl,
             fun _ h => absurd hr (by simp [h])⟩
    · rw [if_neg hi, if_neg hr]
      exact ⟨Or.inr (Or.inr rfl), fun h => absurd h hi, fun _ h => absurd h hr,
             fun _ _ => rfl⟩

/-- C10 witness: a text containing both markers is classified "invoice". -/
theorem C10_doc_type_witness :
    (heuristicFields "Your INVOICE for the receipt").doc_type = some "invoice".data :=
  (C10_doc_type "Your INVOICE for the receipt"
      (heuristicFields "Your INVOICE for the receipt") (by rfl)).2.1 (by decide)

/-! ## First-match characterization of the date scanners (C5) -/

/-- The character before position `i` (`none` at the start of the text). -/
def prevChar (cs : List Char) (i : Nat) : Option Char :=
  if i = 0 then none else cs[i - 1]?

theorem prevChar_succ {cs : List Char} {i : Nat} {c : Char} (h : cs[i]? = some c) :
    prevChar cs (i + 1) = some c := by
  unfold prevChar
  simp [h]

theorem scanA_spec_aux {α : Type} (f : Option Char → List Char → Option α)
    (cs : List Char) :
    ∀ n i, i ≤ cs.length → n = cs.length - i →
      scanA f (prevChar cs i) (cs.drop i)
        = match (List.range' i (cs.length + 1 - i)).find?
              (fun k => (f (prevChar cs k) (cs.drop k)).isSome) with
          | some k => f (prevChar cs k) (cs.drop k)
          | none => none := by
  intro n
  induction n with
  | zero =>
    intro i hle hn
    have hi : i = cs.length := by omega
    subst hi
    have hdrop : cs.drop cs.length = [] := by simp
    have hrange : cs.length + 1 - cs.length = 1 := by omega
    rw [hrange]
    rcases hfi : f (prevChar cs cs.length) ([] : List Char) with _ | a
    · rw [show List.range' cs.length 1 = [cs.length] from rfl]
      rw [List.find?_cons_of_neg _ (by simp [hfi])]
      show scanA f (prevChar cs cs.length) (cs.drop cs.length) = none
      rw [hdrop, scanA, hfi]
    · rw [show List.range' cs.length 1 = [cs.length] from rfl]
      rw [List.find?_cons_of_pos _ (by simp [hfi])]
      show scanA f (prevChar cs cs.length) (cs.drop cs.length)
        = f (prevChar cs cs.length) (cs.drop cs.length)
      rw [hdrop, scanA, hfi]
  | succ n ih =>
    intro i hle hn
    have hlt : i < cs.length := by omega
    rcases hdrop : cs.drop i with _ | ⟨c, rest⟩
    · exfalso
      have := List.length_drop i cs
      rw [hdrop] at this
      simp at this
      omega
    · have hget : cs[i]? = some c := by
        have h0 : (cs.drop i)[0]? = some c := by rw [hdrop]; simp
        rw [List.getElem?_drop] at h0
        simpa using h0
      have hrest : rest = cs.drop (i + 1) := by
        have hdd : (cs.drop i).drop 1 = cs.drop (i + 1) := by
          rw [List.drop_drop]
        rw [hdrop] at hdd
        simpa using hdd
      have hrange : cs.length + 1 - i = (cs.length + 1 - (i + 1)) + 1 := by omega
      rw [hrange, List.range'_succ]
      rcases hfi : f (prevChar cs i) (cs.drop i) with _ | a
      · rw [List.find?_cons_of_neg _ (by simp [hfi])]
        rw [← hdrop]
        have hscan : scanA f (prevChar cs i) (cs.drop i)
            = scanA f (prevChar cs (i + 1)) (cs.drop (i + 1)) := by
          have hfi2 : f (prevChar cs i) (c :: rest) = none := by
            rw [← hdrop]
            exact hfi
          rw [hdrop, scanA, hfi2, hrest, prevChar_succ hget]
        rw [hscan]
        exact ih (i + 1) (by omega) (by omega)
      · rw [List.find?_cons_of_pos _ (by simp [hfi])]
        rw [← hdrop]
        show scanA f (prevChar cs i) (cs.drop i) = f (prevChar cs i) (cs.drop i)
        have hfi2 : f (prevChar cs i) (c :: rest) = some a := by
          rw [← hdrop]
          exact hfi
        rw [hdrop, scanA, hfi2]

/-- `re.search` (leftmost match) for a position-anchored matcher equals the
match at the least matching index. -/
theorem scanA_spec {α : Type} (f : Option Char → List Char → Option α) (cs : List Char) :
    scanA f none cs
      = match (List.range (cs.length + 1)).find?
            (fun k => (f (prevChar cs k) (cs.drop k)).isSome) with
        | some k => f (prevChar cs k) (cs.drop k)
        | none => none := by
  have h := scanA_spec_aux f cs (cs.length - 0) 0 (by omega) rfl
  rw [List.range_eq_range']
  simpa using h

/-- The least text position where the bare-ISO-date pattern matches. -/
def firstIsoIdx (cs : List Char) : Option Nat :=
  (List.range (cs.length + 1)).find? fun i => (isoAt (prevChar cs i) (cs.drop i)).isSome

/-- The least text position where the month-shaped pattern matches. -/
def firstMonthIdx (cs : List Char) : Option Nat :=
  (List.range (cs.length + 1)).find? fun i => (monthMatchAt (prevChar cs i) (cs.drop i)).isSome

/-- The date rule as amended: the match at the FIRST (least-index) bare
`YYYY-MM-DD` position, returned verbatim with no calendar validation;
otherwise the match at the first month-shaped position, converted — and
yielding nothing — per `monthGroupsToDate`. -/
def dateSpecAmended (text : String) : Option (List Char) :=
  match firstIsoIdx text.data with
  | some i => isoAt (prevChar text.data i) (text.data.drop i)
  | none =>
    match firstMonthIdx text.data with
    | some i =>
      match monthMatchAt (prevChar text.data i) (text.data.drop i) with
      | some g => monthGroupsToDate g
      | none => none
    | none => none

/-- C5 counterexample.  On the text "2024-02-30" — an invalid calendar date
and the only date-shaped pattern in the text — extraction succeeds with
`invoice_date = "2024-02-30"`, not the null date the claim requires: the
bare-ISO branch performs no calendar validation. -/
theorem C5_counterexample :
    extract_from_text "2024-02-30" = .ok (heuristicFields "2024-02-30")
    ∧ heuristicFields "2024-02-30"
        = { doc_type := some "unknown".data, invoice_number := none,
            invoice_date := some "2024-02-30".data, total_amount := some 2024,
            currency := none }
    ∧ (heuristicFields "2024-02-30").invoice_date ≠ none := by
  exact ⟨by rfl, by decide, by decide⟩

/-- C5 (amended).  For every input text the extracted date is the match at
the first bare `YYYY-MM-DD` position, returned verbatim (no calendar
validation); else the first "word DD, YYYY"-shaped match converted to
`YYYY-MM-DD`, where a word that is not a full English month name or an
invalid calendar date yields no date; in particular "December 15, 2024"
converts, day 31 in April yields no date, and "2024-02-30" is returned
verbatim. -/
theorem C5_date_extraction (text : String) :
    extract_date_iso text = dateSpecAmended text
    ∧ (heuristicFields "Date: December 15, 2024").invoice_date = some "2024-12-15".data
    ∧ (heuristicFields "Date: April 31, 2024").invoice_date = none
    ∧ (heuristicFields "2024-02-30").invoice_date = some "2024-02-30".data := by
  refine ⟨?_, by rfl, by rfl, by rfl⟩
  unfold extract_date_iso dateSpecAmended monthBranch firstIsoIdx firstMonthIdx
  rw [scanA_spec isoAt text.data, scanA_spec monthMatchAt text.data]
  rcases hI : (List.range (text.data.length + 1)).find?
      (fun k => (isoAt (prevChar text.data k) (text.data.drop k)).isSome) with _ | i
  · rcases hM : (List.range (text.data.length + 1)).find?
        (fun k => (monthMatchAt (prevChar text.data k) (text.data.drop k)).isSome) with _ | i
    · simp [hI, hM]
    · have hsome := List.find?_some hM
      rcases Option.isSome_iff_exists.mp (by simpa using hsome) with ⟨g, hg⟩
      simp [hI, hM, hg]
  · have hsome := List.find?_some hI
    rcases Option.isSome_iff_exists.mp (by simpa using hsome) with ⟨v, hv⟩
    simp [hI, hv]

/-! ## Number normalization (C7) -/

theorem stripChar_of_contains_false {c : Char} {s : List Char}
    (h : s.contains c = false) : stripChar c s = s := by
  unfold stripChar
  apply List.filter_eq_self.mpr
  intro a ha
  have hnm : c ∉ s := by simpa using h
  simp only [decide_eq_true_eq]
  exact fun he => hnm (he ▸ ha)

/-- The normalization rule exactly as the claim words it: FIRST strip
internal whitespace, THEN, when both `,` and `.` occur, treat whichever
mark appears last as the decimal separator and the other as a thousands
separator. -/
def claimNormalize (raw : List Char) : List Char :=
  if (stripChar ' ' raw).contains ',' && (stripChar ' ' raw).contains '.'
      && decide ((lastIdxOf ',' (stripChar ' ' raw)).getD 0
                   > (lastIdxOf '.' (stripChar ' ' raw)).getD 0) then
    swapChar ',' '.' (stripChar '.' (stripChar ' ' raw))
  else stripChar ',' (stripChar ' ' raw)

/-- C7 counterexample.  `"1 234.567,89"` is a matched raw number string (the
single symbol-anchored match of the line `"Total: $1 234.567,89"`).  Under
the claim's normalization it parses to `1234567.89`; the code's
normalization leaves the internal space in place in the comma-last branch,
so `float()` raises and the amount is discarded — the extraction returns a
null total instead of `1234567.89`. -/
theorem C7_counterexample :
    findSymAmounts "Total: $1 234.567,89".data = [('$', "1 234.567,89".data)]
    ∧ parseRawNumber "1 234.567,89".data = none
    ∧ floatOfChars (claimNormalize "1 234.567,89".data) = some (mkRat 123456789 100)
    ∧ mkRat 123456789 100 = (123456789 : ℚ) / 100
    ∧ (heuristicFields "Total: $1 234.567,89").total_amount = none := by
  refine ⟨by decide, by decide, by decide, ?_, by decide⟩
  rw [Rat.mkRat_eq_div]
  norm_num

/-- C7 (amended).  For every matched raw number string without internal
whitespace the code's normalization agrees with the claim's
(strip-whitespace-then-last-mark-decides) rule — in particular `1.234,56`
and `1,234.56` both parse to `1234.56`; but when the raw string contains
both marks with `,` last AND internal whitespace, the code recomputes the
normalization from the unstripped raw string, so the whitespace survives,
the parse fails, and the number is discarded without failing the extraction
(a later parseable amount on the line still wins). -/
theorem C7_number_normalization :
    (∀ raw : List Char, raw.contains ' ' = false →
        normalizeRawNumber raw = claimNormalize raw)
    ∧ parseRawNumber "1.234,56".data = some (mkRat 123456 100)
    ∧ parseRawNumber "1,234.56".data = some (mkRat 123456 100)
    ∧ mkRat 123456 100 = (123456 : ℚ) / 100
    ∧ (∀ raw : List Char, raw.contains ',' = true → raw.contains '.' = true →
        raw.contains ' ' = true →
        (lastIdxOf ',' raw).getD 0 > (lastIdxOf '.' raw).getD 0 →
        ' ' ∈ normalizeRawNumber raw)
    ∧ (heuristicFields "Total: $12 345.678,90 or $45.00").total_amount = some (mkRat 45 1) := by
  refine ⟨?_, by decide, by decide, ?_, ?_, by decide⟩
  · intro raw hs
    have ht : stripChar ' ' raw = raw := stripChar_of_contains_false hs
    unfold normalizeRawNumber claimNormalize
    rw [ht]
  · rw [Rat.mkRat_eq_div]
    norm_num
  · intro raw hc hd hsp hlast
    have hcond : (raw.contains ',' && raw.contains '.'
        && decide ((lastIdxOf ',' raw).getD 0 > (lastIdxOf '.' raw).getD 0)) = true := by
      rw [hc, hd]
      simpa using hlast
    unfold normalizeRawNumber
    rw [if_pos hcond]
    have hmem : ' ' ∈ raw := by simpa using hsp
    have hmem2 : ' ' ∈ stripChar '.' raw := by
      unfold stripChar
      exact List.mem_filter.mpr ⟨hmem, by decide⟩
    unfold swapChar
    exact List.mem_map.mpr ⟨' ', hmem2, by decide⟩

/-- C7 witness: the agreement instantiated at `1.234,56`, and the
whitespace-survival clause instantiated at `1 234.567,89`. -/
theorem C7_number_normalization_witness :
    normalizeRawNumber "1.234,56".data = claimNormalize "1.234,56".data
    ∧ ' ' ∈ normalizeRawNumber "1 234.567,89".data :=
  ⟨C7_number_normalization.1 "1.234,56".data (by decide),
   C7_number_normalization.2.2.2.2.1 "1 234.567,89".data (by decide) (by decide) (by decide)
     (by decide)⟩

/-! ## The backend merge (C8) -/

/-- Python truthiness of an optional string: present iff non-null AND
non-empty. -/
def strPresent (a : Option (List Char)) : Bool :=
  match a with
  | some s => !s.isEmpty
  | none => false

/-- The merge as amended: prefer the external value when truthy (non-null,
non-empty) for the string fields, and when non-null for the numeric amount
field. -/
def mergeAmended (ext heur : Fields) : Fields :=
  { doc_type := if strPresent ext.doc_type then ext.doc_type else heur.doc_type
    invoice_number := if strPresent ext.invoice_number then ext.invoice_number
                      else heur.invoice_number
    invoice_date := if strPresent ext.invoice_date then ext.invoice_date
                    else heur.invoice_date
    total_amount := if ext.total_amount.isSome then ext.total_amount else heur.total_amount
    currency := if strPresent ext.currency then ext.currency else heur.currency }

/-- The merge exactly as the claim words it: prefer the external value when
NON-NULL, for every field. -/
def mergeClaim (ext heur : Fields) : Fields :=
  { doc_type := if ext.doc_type.isSome then ext.doc_type else heur.doc_type
    invoice_number := if ext.invoice_number.isSome then ext.invoice_number
                      else heur.invoice_number
    invoice_date := if ext.invoice_date.isSome then ext.invoice_date
                    else heur.invoice_date
    total_amount := if ext.total_amount.isSome then ext.total_amount else heur.total_amount
    currency := if ext.currency.isSome then ext.currency else heur.currency }

theorem orStr_eq_truthy (a b : Option (List Char)) :
    orStr a b = if strPresent a then a else b := by
  cases a with
  | none => rfl
  | some s =>
    unfold orStr strPresent
    by_cases hs : s.isEmpty <;> simp [hs]

/-- C8 counterexample.  The external backend may return an empty-string
`doc_type` (a non-null value).  On the text "INVOICE" the code's `or`-merge
falls back to the heuristic's "invoice", while the claim's non-null
preference keeps the external empty string — and the all-null-discard
exception does not apply (the claim-merged record is not all null).  So the
result is not the claimed field-wise non-null merge. -/
theorem C8_counterexample :
    run_extractor "llm"
        (.ok { doc_type := some [], invoice_number := none, invoice_date := none,
               total_amount := none, currency := none }) "INVOICE"
      = .ok (mergeFields
          { doc_type := some [], invoice_number := none, invoice_date := none,
            total_amount := none, currency := none } (heuristicFields "INVOICE"))
    ∧ (mergeFields
          { doc_type := some [], invoice_number := none, invoice_date := none,
            total_amount := none, currency := none }
          (heuristicFields "INVOICE")).doc_type = some "invoice".data
    ∧ (mergeClaim
          { doc_type := some [], invoice_number := none, invoice_date := none,
            total_amount := none, currency := none }
          (heuristicFields "INVOICE")).doc_type = some []
    ∧ allNull (mergeClaim
          { doc_type := some [], invoice_number := none, invoice_date := none,
            total_amount := none, currency := none } (heuristicFields "INVOICE")) = false
    ∧ mergeFields
          { doc_type := some [], invoice_number := none, invoice_date := none,
            total_amount := none, currency := none } (heuristicFields "INVOICE")
        ≠ mergeClaim
            { doc_type := some [], invoice_number := none, invoice_date := none,
              total_amount := none, currency := none } (heuristicFields "INVOICE") := by
  exact ⟨by rfl, by decide, by decide, by decide, by decide⟩

/-- C8 (amended).  When the "llm" backend is selected and the external call
returns a field dict (and the text is sentinel-free, so the fresh heuristic
run returns), the result is the field-wise merge preferring the external
value when TRUTHY (non-null and non-empty) for the string fields and when
non-null for `total_amount` — except that if every merged field is null the
heuristic result is returned outright. -/
theorem C8_merge (lr : Fields) (text : String)
    (hs : listContains text.data sentinelMarker.data = false) :
    run_extractor "llm" (.ok lr) text
      = .ok (if allNull (mergeAmended lr (heuristicFields text))
             then heuristicFields text
             else mergeAmended lr (heuristicFields text)) := by
  have he : extract_from_text text = .ok (heuristicFields text) := by
    rw [extract_from_text, if_neg (by simp [hs])]
  have hma : mergeFields lr (heuristicFields text) = mergeAmended lr (heuristicFields text) := by
    unfold mergeFields mergeAmended
    rw [orStr_eq_truthy, orStr_eq_truthy, orStr_eq_truthy, orStr_eq_truthy]
    rcases hta : lr.total_amount with _ | v <;> simp [hta]
  rw [run_extractor.eq_def, if_pos (by rfl : ("llm" == "llm") = true)]
  rw [he]
  show (if allNull (mergeFields lr (heuristicFields text)) = true
        then Except.ok (heuristicFields text)
        else Except.ok (mergeFields lr (heuristicFields text))) = _
  rw [hma]
  cases h : allNull (mergeAmended lr (heuristicFields text)) <;> simp [h]

/-- C8 witness: the amended merge at a concrete external dict and text. -/
theorem C8_merge_witness :
    run_extractor "llm"
        (.ok { doc_type := none, invoice_number := none, invoice_date := none,
               total_amount := none, currency := none }) "hello"
      = .ok (if allNull (mergeAmended
                 { doc_type := none, invoice_number := none, invoice_date := none,
                   total_amount := none, currency := none } (heuristicFields "hello"))
             then heuristicFields "hello"
             else mergeAmended
                 { doc_type := none, invoice_number := none, invoice_date := none,
                   total_amount := none, currency := none } (heuristicFields "hello")) :=
  C8_merge
    { doc_type := none, invoice_number := none, invoice_date := none,
      total_amount := none, currency := none } "hello" (by decide)
